import Mathlib

/-!
# Verification of the Jinjiang metadata plugin (calibre-jinjiangBooks)

Shallow embedding, in Lean 4, of the pure data-processing core of
`src/__init__.py` (and the identical `parse_search_keyword` copy in
`src/single_test.py`).  JSON payloads obtained from `json.loads` are
modelled by the `JValue` tree; HTTP fetches, which are external effects,
are modelled by explicit `Option`/`Except` parameters or response
oracles.  Python strings are modelled as `List Char` (Lean `String` at
the API boundary); Python truthiness, `str()`, `strip()`, `int()` and
the concrete regular expressions used by the plugin are translated
directly from the source.
-/

set_option linter.unusedVariables false
set_option linter.unreachableTactic false
set_option linter.unnecessarySeqFocus false
set_option linter.unusedTactic false

namespace Jinjiang

/-- JSON value tree: the result type of `json.loads` in the source. -/
inductive JValue where
  | null
  | bool (b : Bool)
  | num (n : Int)
  | str (s : String)
  | arr (xs : List JValue)
  | obj (fields : List (String × JValue))

/-- Python truthiness (`bool(x)`) for JSON values: `None`, `False`, `0`,
`""`, `[]` and `{}` are falsy, everything else truthy. -/
def truthy : JValue → Bool
  | .null => false
  | .bool b => b
  | .num n => n != 0
  | .str s => s != ""
  | .arr xs => !xs.isEmpty
  | .obj fs => !fs.isEmpty

/-- `dict.get(k)`: first binding wins (JSON objects from `json.loads`
have unique keys, later duplicates overwrite, so the assoc list is
assumed deduplicated at construction). -/
def jlookup (k : String) : List (String × JValue) → Option JValue
  | [] => none
  | (k0, v) :: rest => if k0 = k then some v else jlookup k rest

/-- `obj.get(k)` with the Python `or`-chain convention: `none` for a
missing key (Python `None`). -/
def jget (v : JValue) (k : String) : Option JValue :=
  match v with
  | .obj fs => jlookup k fs
  | _ => none

/-- Truthiness of an optional value (`if obj.get(k):`). -/
def truthyO : Option JValue → Bool
  | none => false
  | some v => truthy v

/-- `obj.get(k)` seen through Python truthiness: a falsy value behaves
like an absent one in all the `x = d.get(k) or y` chains of the source. -/
def jgetT (v : JValue) (k : String) : Option JValue :=
  match jget v k with
  | some w => if truthy w then some w else none
  | none => none

/-! ## Python character/string primitives -/

/-- Characters for which Python's `str.isspace()` (and, on the
character sets handled here, the regex class `\s`) is true. -/
def isPySpace (c : Char) : Bool :=
  let n := c.toNat
  n == 0x9 || n == 0xA || n == 0xB || n == 0xC || n == 0xD || n == 0x20 ||
  n == 0x1C || n == 0x1D || n == 0x1E || n == 0x1F || n == 0x85 || n == 0xA0 ||
  n == 0x1680 || (0x2000 ≤ n && n ≤ 0x200A) || n == 0x2028 || n == 0x2029 ||
  n == 0x202F || n == 0x205F || n == 0x3000

def isAsciiDigit (c : Char) : Bool := '0' ≤ c && c ≤ '9'

/-- ASCII lowering; Python `str.lower()` restricted to the Latin
synonyms actually matched case-insensitively by the source. -/
def lowerC (c : Char) : Char :=
  if 'A' ≤ c && c ≤ 'Z' then Char.ofNat (c.toNat + 32) else c

def lowerL (l : List Char) : List Char := l.map lowerC

def lowerS (s : String) : String := ⟨lowerL s.data⟩

/-- Strip from the back: `reverse ∘ dropWhile p ∘ reverse`. -/
def dropTrail (p : Char → Bool) (l : List Char) : List Char :=
  ((l.reverse).dropWhile p).reverse

/-- Python `str.strip()` on char lists. -/
def pyStripL (l : List Char) : List Char :=
  dropTrail isPySpace (l.dropWhile isPySpace)

/-- Python `str.strip()`. -/
def pyStrip (s : String) : String := ⟨pyStripL s.data⟩

/-- Python `str.strip(chs)` for an explicit character set. -/
def pyStripCharsL (chs : List Char) (l : List Char) : List Char :=
  dropTrail (fun c => chs.contains c) (l.dropWhile (fun c => chs.contains c))

/-- `a.startswith(p)` on char lists. -/
def isPfx : List Char → List Char → Bool
  | [], _ => true
  | _ :: _, [] => false
  | a :: as, b :: bs => a == b && isPfx as bs

/-- Case-insensitive (ASCII) prefix test, for the `re.I` patterns. -/
def isPfxCI (p l : List Char) : Bool := isPfx (lowerL p) (lowerL l)

/-- `sub in s` substring test. -/
def hasSub (pat : List Char) : List Char → Bool
  | [] => isPfx pat []
  | l@(_ :: rest) => isPfx pat l || hasSub pat rest

/-- `sep.join(parts)`. -/
def joinSep (sep : String) : List String → String
  | [] => ""
  | [x] => x
  | x :: rest => x ++ sep ++ joinSep sep rest

/-- Digits of a nonnegative number, for `str(n)`/`'%s' % n`. -/
def natDigits (n : Nat) : List Char :=
  if n = 0 then ['0'] else (Nat.toDigits 10 n)

/-- Python `str(i)` for an integer. -/
def intStr (i : Int) : String :=
  if i < 0 then ⟨'-' :: natDigits i.natAbs⟩ else ⟨natDigits i.natAbs⟩

/-- Parse an all-ASCII-digit char list as a natural number. -/
def digitsToNat (l : List Char) : Nat :=
  l.foldl (fun acc c => acc * 10 + (c.toNat - '0'.toNat)) 0

/-- `s.isdigit()` restricted to ASCII digits (the source only ever sees
ASCII timestamps/ids here; Python additionally accepts other Unicode
digit characters). -/
def allDigits (l : List Char) : Bool := l ≠ [] && l.all isAsciiDigit

mutual
/-- Python `repr` for JSON values (the source applies `str()` to lists
and dicts in a few fallback branches).  String escaping inside `repr`
is not reproduced (no claim depends on it). -/
def pyRepr : JValue → String
  | .null => "None"
  | .bool true => "True"
  | .bool false => "False"
  | .num n => intStr n
  | .str s => "'" ++ s ++ "'"
  | .arr xs => "[" ++ joinSep ", " (pyReprList xs) ++ "]"
  | .obj fs => "\x7b" ++ joinSep ", " (pyReprObj fs) ++ "\x7d"

def pyReprList : List JValue → List String
  | [] => []
  | x :: rest => pyRepr x :: pyReprList rest

def pyReprObj : List (String × JValue) → List String
  | [] => []
  | (k, v) :: rest => ("'" ++ k ++ "': " ++ pyRepr v) :: pyReprObj rest
end

/-- Python `str(x)` for JSON values. -/
def pyStr : JValue → String
  | .null => "None"
  | .bool true => "True"
  | .bool false => "False"
  | .num n => intStr n
  | .str s => s
  | v => pyRepr v

/-- Python `int(x)` as used on JSON values: parses an optionally signed
ASCII-digit string (surrounding whitespace allowed), truncates nothing
(no floats appear), raises (`none`) otherwise. -/
def pyInt : JValue → Option Int
  | .num n => some n
  | .bool true => some 1
  | .bool false => some 0
  | .str s =>
    let l := pyStripL s.data
    match l with
    | '-' :: ds => if allDigits ds then some (-(digitsToNat ds : Int)) else none
    | '+' :: ds => if allDigits ds then some ((digitsToNat ds : Int)) else none
    | ds => if allDigits ds then some ((digitsToNat ds : Int)) else none
  | _ => none

/-! ## Regex-shaped scanners

The source uses a handful of concrete regular expressions; each is
translated into a direct scanner with the same semantics. -/

/-- Drop everything up to and including the first occurrence of `c`
(`none` when `c` does not occur). -/
def splitFirst (c : Char) : List Char → Option (List Char)
  | [] => none
  | y :: ys => if y = c then some ys else splitFirst c ys

/-- `re.sub(r"o[^c]*c", '', s)` for single characters `o`, `c`: the
regex engine scans left to right; at an `o` it consumes through the
first following `c` (the greedy `[^c]*` cannot cross one); an `o`
without any later `c` never matches. -/
def rmDelim (o c : Char) : List Char → List Char
  | [] => []
  | x :: xs =>
    if x = o then
      match h : splitFirst c xs with
      | some rest => rmDelim o c rest
      | none => x :: rmDelim o c xs
    else x :: rmDelim o c xs
termination_by l => l.length
decreasing_by
  · simp only [List.length_cons]
    have hsl : ∀ (cc : Char) {xs r : List Char},
        splitFirst cc xs = some r → r.length < xs.length := by
      intro cc xs
      induction xs with
      | nil => intro r hh; simp [splitFirst] at hh
      | cons y ys ih =>
        intro r hh
        simp only [splitFirst] at hh
        split at hh
        · cases hh; simp
        · exact Nat.lt_trans (ih hh) (by simp)
    exact Nat.lt_succ_of_lt (hsl c h)
  · simp
  · simp

/-- `re.sub(p_run, ' ', s)`: each maximal run of characters satisfying
`p` is replaced by a single space. -/
def collapseRuns (p : Char → Bool) : List Char → List Char
  | [] => []
  | x :: xs =>
    if p x then ' ' :: collapseRuns p (xs.dropWhile p) else x :: collapseRuns p xs
termination_by l => l.length
decreasing_by
  · simp only [List.length_cons]
    have hdw : ∀ (q : Char → Bool) (l : List Char),
        (l.dropWhile q).length ≤ l.length := by
      intro q l
      induction l with
      | nil => simp [List.dropWhile]
      | cons a as ih =>
        simp only [List.dropWhile]
        split
        · exact Nat.le_trans ih (by simp)
        · simp
    exact Nat.lt_succ_of_le (hdw _ _)
  · simp

/-- `s.replace(a, b)` for single characters. -/
def replAll (a b : Char) (l : List Char) : List Char :=
  l.map (fun x => if x = a then b else x)

/-! ## `html_to_text`

The source prefers the optional `html2text` library when importable and
otherwise falls back to regex stripping; the deterministic in-repo
fallback path (`re.sub(r'<[^>]+>', '')` + whitespace collapsing) is the
one modelled. -/

/-- `re.sub(r'<[^>]+>', '', s)`: at a `<`, the match needs at least one
non-`>` character and then the first following `>`; `<>` or a `<`
without any later `>` does not match. -/
def stripTags : List Char → List Char
  | [] => []
  | '<' :: '>' :: rest => '<' :: stripTags ('>' :: rest)
  | '<' :: xs =>
    (match h : splitFirst '>' xs with
     | some rest => stripTags rest
     | none => '<' :: stripTags xs)
  | x :: xs => x :: stripTags xs
termination_by l => l.length
decreasing_by
  · simp
  · simp only [List.length_cons]
    have hsl : ∀ (cc : Char) {xs r : List Char},
        splitFirst cc xs = some r → r.length < xs.length := by
      intro cc xs
      induction xs with
      | nil => intro r hh; simp [splitFirst] at hh
      | cons y ys ih =>
        intro r hh
        simp only [splitFirst] at hh
        split at hh
        · cases hh; simp
        · exact Nat.lt_trans (ih hh) (by simp)
    exact Nat.lt_succ_of_lt (hsl _ h)
  · simp
  · simp

/-- `html_to_text` (fallback path): strip tags, collapse whitespace,
strip; empty input maps to `''`. -/
def html_to_text (s : String) : String :=
  if s = "" then ""
  else ⟨pyStripL (collapseRuns isPySpace (stripTags s.data))⟩

/-! ## `normalize_query` -/

/-- Full-width folding (step 1 of `normalize_query`): U+3000 to a
space, U+FF01..U+FF5E shifted down by 0xFEE0. -/
def f2h (c : Char) : Char :=
  if c.toNat = 0x3000 then ' '
  else if 0xFF01 ≤ c.toNat && c.toNat ≤ 0xFF5E then Char.ofNat (c.toNat - 0xFEE0)
  else c

def full2half (l : List Char) : List Char := l.map f2h

/-- Python's Unicode `\w` restricted to the character ranges this
plugin can actually encounter: ASCII word characters, Latin-1 letters,
kana (minus the U+30FB middle dot, which is punctuation), CJK
extension A, the unified CJK block and Hangul syllables. -/
def isWordChar (c : Char) : Bool :=
  let n := c.toNat
  ('0' ≤ c && c ≤ '9') || ('A' ≤ c && c ≤ 'Z') || ('a' ≤ c && c ≤ 'z') || c == '_' ||
  (0xC0 ≤ n && n ≤ 0xFF && n ≠ 0xD7 && n ≠ 0xF7) ||
  (0x3040 ≤ n && n ≤ 0x30FF && n ≠ 0x30FB) ||
  (0x3400 ≤ n && n ≤ 0x4DBF) ||
  (0xAC00 ≤ n && n ≤ 0xD7A3)

/-- The keep-class of step 4 of `normalize_query`:
`[\w一-鿿　-〿\-\.:,' ]`. -/
def keepChar (c : Char) : Bool :=
  let n := c.toNat
  isWordChar c ||
  (0x4E00 ≤ n && n ≤ 0x9FFF) ||
  (0x3000 ≤ n && n ≤ 0x303F) ||
  c == '-' || c == '.' || c == ':' || c == ',' || c == '\'' || c == ' '

/-- Step 4: `re.sub(r"[^keep]+", ' ', s)`. -/
def filterKeep (l : List Char) : List Char := collapseRuns (fun c => !keepChar c) l

/-- Step 5: `re.sub(r"\s+", ' ', s).strip()`. -/
def collapseStrip (l : List Char) : List Char := pyStripL (collapseRuns isPySpace l)

/-- The body of `normalize_query` on char lists (nonempty input). -/
def normalizeL (l : List Char) : List Char :=
  let l := full2half l
  let l := rmDelim '(' ')' l
  let l := rmDelim '[' ']' l
  let l := rmDelim '（' '）' l
  let l := rmDelim '【' '】' l
  let l := replAll '·' ' ' l
  let l := replAll '•' ' ' l
  let l := replAll '・' ' ' l
  let l := replAll '…' ' ' l
  let l := replAll '：' ':' l
  let l := replAll '。' '.' l
  let l := replAll '，' ',' l
  let l := filterKeep l
  collapseStrip l

/-- `normalize_query`: falsy (empty) input is returned unchanged. -/
def normalize_query (s : String) : String :=
  if s = "" then s else ⟨normalizeL s.data⟩

/-! ## Idempotence of `normalize_query`

Strategy: characterise the image of the pipeline (no full-width
characters, every character in the keep class, no `。`, no unfinished
`【 … 】` pair) and show that every stage is the identity on such
strings; the final whitespace-collapsing stage is idempotent on its
own. -/

/-- Full-width characters folded away by step 1. -/
def inFW (c : Char) : Prop :=
  c.toNat = 0x3000 ∨ (0xFF01 ≤ c.toNat ∧ c.toNat ≤ 0xFF5E)

/-- No `o` is followed (anywhere later) by a `c`: exactly the condition
under which `re.sub(r"o[^c]*c", '')` finds no match. -/
def NoPair (o c : Char) (l : List Char) : Prop :=
  ∀ l1 l2, l = l1 ++ o :: l2 → c ∉ l2

/-- No two adjacent characters both satisfy `p`. -/
def NoAdjP (p : Char → Bool) (l : List Char) : Prop :=
  ∀ l1 a b l2, l = l1 ++ a :: b :: l2 → ¬(p a = true ∧ p b = true)

/-- Characterisation of the output of `normalizeL` that makes every
stage of a second pass the identity. -/
def GoodOut (l : List Char) : Prop :=
  (∀ c ∈ l, keepChar c = true) ∧
  (∀ c ∈ l, ¬ inFW c) ∧
  '。' ∉ l ∧
  NoPair '【' '】' l

/-- The full-width class named by the spec: U+FF01..U+FF5E and the
ideographic space U+3000. -/
def inFWB (c : Char) : Bool :=
  (c.toNat == 0x3000) || (0xFF01 ≤ c.toNat && c.toNat ≤ 0xFF5E)

/-- Half-width equivalents of that class: exactly ASCII U+0020..U+007E. -/
def halfwidthB (c : Char) : Bool :=
  (0x20 ≤ c.toNat) && (c.toNat ≤ 0x7E)

/-- `SEARCH_TYPE_MAP` values. -/
def SEARCH_TYPE_MAP : List (String × Int) :=
  [("book", 1), ("author", 2), ("protagonist", 4), ("supporting", 5), ("other", 6), ("id", 7)]

def searchTypeValues : List Int := SEARCH_TYPE_MAP.map (·.2)

/-- `(.+)$` / `(.*)$` applied to the remainder `r`: the group is the
maximal newline-free prefix; the match succeeds when nothing, or
exactly one final newline, remains after it (`plus` requires a
non-empty group). -/
def tailMatch (plus : Bool) (r : List Char) : Option (List Char) :=
  let g := r.takeWhile (fun c => c ≠ '\n')
  let rest := r.drop g.length
  if (rest.isEmpty || rest == ['\n']) && (!plus || !g.isEmpty) then some g else none

/-- `\s*(.+)$` (or `\s*(.*)$`): greedy `\s*` with backtracking — the
engine first takes the maximal whitespace run and on failure gives
characters back one by one. -/
def wsThenTail (plus : Bool) (t : List Char) : Option (List Char) :=
  let rec go : Nat → Option (List Char)
    | 0 => tailMatch plus t
    | k + 1 =>
      match tailMatch plus (t.drop (k + 1)) with
      | some g => some g
      | none => go k
  go (t.takeWhile isPySpace).length

/-- `\s*[:：]\s*(.+)$` — the separator used by all keyword-prefix
patterns (`[:=]` variant selected by `seps`). -/
def sepThenRest (seps : List Char) (t : List Char) : Option (List Char) :=
  let t1 := t.dropWhile isPySpace
  match t1 with
  | c :: t2 => if seps.contains c then wsThenTail true t2 else none
  | [] => none

/-- `\s*[:=]\s*(\d+)\s*(.*)$` after the `t`/`type` marker. -/
def afterTypeTag (t : List Char) : Option (Int × List Char) :=
  let t1 := t.dropWhile isPySpace
  match t1 with
  | c :: t2 =>
    if c = ':' || c = '=' then
      let t3 := t2.dropWhile isPySpace
      let digits := t3.takeWhile isAsciiDigit
      if digits.isEmpty then none
      else
        match wsThenTail false (t3.drop digits.length) with
        | some g => some ((digitsToNat digits : Int), g)
        | none => none
    else none
  | [] => none

/-- `re.match(r'^(?:t|type)\s*[:=]\s*(\d+)\s*(.*)$', q, re.I)`:
alternation tries `t` first, then `type`; the two alternatives cannot
both succeed, since after a literal `t` the pattern requires `\s*[:=]`. -/
def matchTypeNum (q : List Char) : Option (Int × List Char) :=
  match q with
  | c :: rest =>
    if lowerC c = 't' then
      match afterTypeTag rest with
      | some r => some r
      | none =>
        if isPfxCI "ype".data rest then afterTypeTag (rest.drop 3) else none
    else none
  | [] => none

/-- One localized-prefix pattern
`^(?:<cjk>|<latin>)\s*[:：]\s*(.+)$` (case-insensitive on the Latin
synonym). -/
def matchKeywordSyn (cjk latin : String) (q : List Char) : Option (List Char) :=
  if isPfx cjk.data q then sepThenRest [':', '：'] (q.drop cjk.data.length)
  else if isPfxCI latin.data q then sepThenRest [':', '：'] (q.drop latin.data.length)
  else none

/-- The `其它|其他|other` pattern has two CJK synonyms. -/
def matchOtherSyn (q : List Char) : Option (List Char) :=
  if isPfx "其它".data q then sepThenRest [':', '：'] (q.drop 2)
  else if isPfx "其他".data q then sepThenRest [':', '：'] (q.drop 2)
  else if isPfxCI "other".data q then sepThenRest [':', '：'] (q.drop 5)
  else none

/-- The `ID|文章ID|id` pattern: with `re.I` the `ID` and `id`
alternatives coincide. -/
def matchIdSyn (q : List Char) : Option (List Char) :=
  if isPfxCI "id".data q then sepThenRest [':', '：'] (q.drop 2)
  else if isPfxCI "文章id".data q then sepThenRest [':', '：'] (q.drop 4)
  else none

/-- `q.startswith(marker) and q.endswith("#")` with the inner slice
`q[len(marker):-1].strip()`, for the legacy `前缀#...#` notations
(`q = marker` itself passes both tests and yields the empty inner). -/
def legacyTag (marker : String) (q : List Char) : Option (List Char) :=
  if isPfx marker.data q && isPfx ['#'] q.reverse then
    some (pyStripL ((q.drop marker.data.length).dropLast))
  else none

/-- The pattern chain of `parse_search_keyword` after the `t=`/`type=`
form failed to produce a valid type code. -/
def parseAfterTypeNum (query : String) (q : List Char) : String × Int :=
  match matchKeywordSyn "作者" "author" q with
  | some g => (⟨pyStripL g⟩, 2)
  | none =>
  match matchKeywordSyn "主角" "protagonist" q with
  | some g => (⟨pyStripL g⟩, 4)
  | none =>
  match matchKeywordSyn "配角" "supporting" q with
  | some g => (⟨pyStripL g⟩, 5)
  | none =>
  match matchOtherSyn q with
  | some g => (⟨pyStripL g⟩, 6)
  | none =>
  match matchIdSyn q with
  | some g => (⟨pyStripL g⟩, 7)
  | none =>
  if isPfx ['#'] q && isPfx ['#'] q.reverse then
    (⟨pyStripL (pyStripCharsL ['#'] q)⟩, 2)
  else if (legacyTag "主角#" q).isSome then
    (⟨(legacyTag "主角#" q).getD []⟩, 4)
  else if (legacyTag "配角#" q).isSome then
    (⟨(legacyTag "配角#" q).getD []⟩, 5)
  else if (legacyTag "其他#" q).isSome then
    (⟨(legacyTag "其他#" q).getD []⟩, 6)
  else if (legacyTag "ID#" q).isSome then
    (⟨(legacyTag "ID#" q).getD []⟩, 7)
  else (query, 1)

/-- `parse_search_keyword(query)`: returns the cleaned keyword and the
search-type code (default 1 = title search). -/
def parse_search_keyword (query : String) : String × Int :=
  if query = "" then (query, 1)
  else
    let q := pyStripL query.data
    match matchTypeNum q with
    | some (tnum, g) =>
      if searchTypeValues.contains tnum then
        let rest := pyStripL g
        (if rest ≠ [] then (⟨rest⟩ : String) else query, tnum)
      else parseAfterTypeNum query q
    | none => parseAfterTypeNum query q

/-! ## URL plumbing: constants, `urlencode`, id extraction -/

def JINJIANG_BASE_URL : String := "https://www.jjwxc.net/"

def JINJIANG_SEARCH_APP_URL : String := "https://app.jjwxc.org/search/searchV3"

def JINJIANG_SEARCH_APP_ANDROID_API : String := "https://app.jjwxc.org/androidapi/search"

def PROVIDER_ID : String := "jinjiang_enhanced"

/-- `JINJIANG_BOOK_DETAIL_WEB_URL % novelid`. -/
def bookDetailUrl (novelid : String) : String :=
  "https://www.jjwxc.net/onebook.php?novelid=" ++ novelid

/-- UTF-8 bytes of a character (standard encoding of the scalar value). -/
def utf8Bytes (c : Char) : List Nat :=
  let n := c.toNat
  if n < 0x80 then [n]
  else if n < 0x800 then [0xC0 + n / 64, 0x80 + n % 64]
  else if n < 0x10000 then [0xE0 + n / 4096, 0x80 + (n / 64) % 64, 0x80 + n % 64]
  else [0xF0 + n / 0x40000, 0x80 + (n / 4096) % 64, 0x80 + (n / 64) % 64, 0x80 + n % 64]

def hexDigit (n : Nat) : Char :=
  if n < 10 then Char.ofNat ('0'.toNat + n) else Char.ofNat ('A'.toNat + (n - 10))

/-- `urllib.parse.quote_plus`: unreserved characters pass through,
space becomes `+`, everything else is percent-encoded bytewise. -/
def quotePlusChar (c : Char) : List Char :=
  if ('0' ≤ c && c ≤ '9') || ('A' ≤ c && c ≤ 'Z') || ('a' ≤ c && c ≤ 'z') ||
     c == '_' || c == '.' || c == '-' || c == '~' then [c]
  else if c = ' ' then ['+']
  else (utf8Bytes c).flatMap (fun b => ['%', hexDigit (b / 16), hexDigit (b % 16)])

def quotePlus (s : String) : String :=
  ⟨s.data.flatMap quotePlusChar⟩

/-- `urlencode(params)` over an ordered parameter list. -/
def urlencode (params : List (String × String)) : String :=
  joinSep "&" (params.map (fun p => quotePlus p.1 ++ "=" ++ quotePlus p.2))

/-- `%XX` percent-decoding to bytes plus pass-through of other
characters (as their UTF-8 bytes); `unquote` leaves `+` alone. -/
def hexVal (c : Char) : Option Nat :=
  let n := c.toNat
  if 0x30 ≤ n && n ≤ 0x39 then some (n - 0x30)
  else if 0x61 ≤ n && n ≤ 0x66 then some (n - 0x61 + 10)
  else if 0x41 ≤ n && n ≤ 0x46 then some (n - 0x41 + 10)
  else none

def unquoteBytes : List Char → List Nat
  | [] => []
  | '%' :: h1 :: h2 :: rest =>
    match hexVal h1, hexVal h2 with
    | some a, some b => (a * 16 + b) :: unquoteBytes rest
    | _, _ => utf8Bytes '%' ++ unquoteBytes (h1 :: h2 :: rest)
  | c :: rest => utf8Bytes c ++ unquoteBytes rest

/-- Decode a UTF-8 byte list, replacing malformed sequences with
U+FFFD (the `errors='replace'` behaviour of `unquote`). -/
def utf8Decode : List Nat → List Char
  | [] => []
  | b :: rest =>
    if b < 0x80 then Char.ofNat b :: utf8Decode rest
    else if 0xC0 ≤ b && b < 0xE0 then
      match rest with
      | b2 :: rest2 =>
        if 0x80 ≤ b2 && b2 < 0xC0 then
          Char.ofNat ((b - 0xC0) * 64 + (b2 - 0x80)) :: utf8Decode rest2
        else '�' :: utf8Decode (b2 :: rest2)
      | [] => ['�']
    else if 0xE0 ≤ b && b < 0xF0 then
      match rest with
      | b2 :: b3 :: rest3 =>
        if 0x80 ≤ b2 && b2 < 0xC0 && 0x80 ≤ b3 && b3 < 0xC0 then
          let n := (b - 0xE0) * 4096 + (b2 - 0x80) * 64 + (b3 - 0x80)
          (if n < 0xD800 || 0xE000 ≤ n then Char.ofNat n else '�') :: utf8Decode rest3
        else '�' :: utf8Decode (b2 :: b3 :: rest3)
      | [b2] => ['�']
      | [] => ['�']
    else '�' :: utf8Decode rest
termination_by l => l.length
decreasing_by all_goals simp_arith

/-- `urllib.parse.unquote`. -/
def pyUnquote (s : String) : String := ⟨utf8Decode (unquoteBytes s.data)⟩

/-! ## `extract_sid_from_cookie` -/

/-- `re.search(pat + "(cap+)", c)`: find the first position where the
literal `pat` is followed by at least one `ok` character; capture the
maximal `ok` run there.  A position where the run is empty is skipped
and the scan continues. -/
def findCap (pat : List Char) (ok : Char → Bool) : List Char → Option (List Char)
  | [] => none
  | l@(_ :: rest) =>
    if isPfx pat l then
      let cap := (l.drop pat.length).takeWhile ok
      if cap.isEmpty then findCap pat ok rest else some cap
    else findCap pat ok rest

def notSemiWs (c : Char) : Bool := !(c == ';' || isPySpace c)

def notSemi (c : Char) : Bool := c != ';'

def isWordOrDash (c : Char) : Bool :=
  ('0' ≤ c && c ≤ '9') || ('A' ≤ c && c ≤ 'Z') || ('a' ≤ c && c ≤ 'z') || c == '_' || c == '-' ||
  isWordChar c

/-- The `except`-branch regex
`sidkey\W*[:=]\W*'?\"?([\w-]+)'?\"?` applied after a failed
`json.loads`: after a `sidkey` occurrence the engine crosses the
non-word run as long as it contains a `:`/`=`, then captures the first
word/dash run.  (Pathological quote/hyphen backtracking inside the
non-word run is not reproduced; no behaviour relied on here reaches
it.) -/
def sidkeyScan : List Char → Option (List Char)
  | [] => none
  | l@(_ :: rest) =>
    if isPfx "sidkey".data l then
      let t := l.drop 6
      let run := t.takeWhile (fun c => !isWordOrDash c)
      if run.contains ':' || run.contains '=' then
        let cap := (t.drop run.length).takeWhile isWordOrDash
        if cap.isEmpty then sidkeyScan rest else some cap
      else sidkeyScan rest
    else sidkeyScan rest

/-- The tail of the strategy chain: a `JJEVER` cookie is matched but
deliberately not parsed further (the source returns `None` there), and
the final fallthrough is also `None`. -/
def extractAfterJJSESS (c : List Char) : Option String :=
  match findCap "JJEVER=".data notSemiWs c with
  | some _ => none
  | none => none

/-- `extract_sid_from_cookie`.  The `json.loads` call on the `JJSESS`
cookie is an external parser and is passed in as `jparse`; everything
else follows the source's strategy chain: `sid=`, `token=`,
`bbstoken=`, the `JJSESS` JSON (keys `sid`/`sidkey`/`token`, with the
`sidkey` regex on parse failure), and a `JJEVER` match that returns
`None` deliberately. -/
def extract_sid_from_cookie (cookie : Option String)
    (jparse : String → Option JValue) : Option String :=
  match cookie with
  | none => none
  | some cs =>
    if cs = "" then none
    else
      let c := cs.data
      match findCap "sid=".data notSemiWs c with
      | some cap => some ⟨cap⟩
      | none =>
      match findCap "token=".data notSemiWs c with
      | some cap => some (pyUnquote ⟨cap⟩)
      | none =>
      match findCap "bbstoken=".data notSemiWs c with
      | some cap => some (pyUnquote ⟨cap⟩)
      | none =>
      match findCap "JJSESS=".data notSemi c with
      | some cap =>
        let raw := pyUnquote ⟨cap⟩
        (match jparse raw with
         | some (.obj fs) =>
           match jgetT (.obj fs) "sid", jgetT (.obj fs) "sidkey", jgetT (.obj fs) "token" with
           | some v, _, _ => some (pyStr v)
           | none, some v, _ => some (pyStr v)
           | none, none, some v => some (pyStr v)
           | none, none, none => extractAfterJJSESS c
         | some _ => extractAfterJJSESS c
         | none =>
           match sidkeyScan raw.data with
           | some cap2 => some ⟨cap2⟩
           | none => extractAfterJJSESS c)
      | none => extractAfterJJSESS c

/-! ## The search stage (`search_via_app_api` and friends)

HTTP is modelled by a response oracle `respond : String → Option JValue`
mapping a request URL to the parsed JSON body; `none` stands for any of
the per-attempt failures the source swallows (network error, non-2xx
status, or a body `json.loads` cannot parse — all of which make the
strategy fall through identically).  The first component of the result
collects every URL actually requested (the source's `tried` list). -/

/-- `self.sid` truthiness (`if not self.sid`). -/
def sidTruthy : Option String → Bool
  | none => false
  | some s => s != ""

/-- `_extract_books_from_json`: tolerate `{code:0,data:{books|results|items|list}}`,
the same keys at top level, or a bare array; falsy input yields the
empty list.  `.error` is the `d.get(...)` AttributeError on a non-dict
`data` value inside the code-0 envelope; a truthy non-list container is
returned as is (the caller's `for` loop then raises on it without
appending anything). -/
def extract_books_from_json (data : JValue) : Except Unit JValue :=
  if truthy data = false then .ok (.arr [])
  else
    match data with
    | .obj fs =>
      if (match jlookup "code" fs with
          | some (.num 0) => true
          | some (.bool false) => true
          | _ => false) && truthyO (jlookup "data" fs) then
        (match (jlookup "data" fs).getD .null with
         | .obj ds =>
           .ok (match jgetT (.obj ds) "books" <|> jgetT (.obj ds) "results" <|>
                      jgetT (.obj ds) "items" <|> jgetT (.obj ds) "list" with
                | some v => v
                | none => .arr [])
         -- `d.get(...)` on a non-dict `data` value raises out of the
         -- strategy's try block
         | _ => .error ())
      else
        .ok (match jgetT data "books" <|> jgetT data "results" <|>
                   jgetT data "items" <|> jgetT data "list" with
             | some v => v
             | none => .arr [])
    | .arr bs => .ok (.arr bs)
    | _ => .ok (.arr [])

/-- The id-collecting loop shared by both strategies, run over the
already collected `book_urls` (`acc`):
`book.get('novelid') or book.get('bookId') or book.get('id')`, capped
at `max_workers` detail URLs.  A non-dict element raises; the URLs
appended before the raise stay in `book_urls`, so the result carries
the extended list together with the raised flag. -/
def collectBookUrls (maxWorkers : Nat) : List String → List JValue → List String × Bool
  | acc, [] => (acc, false)
  | acc, b :: rest =>
    match b with
    | .obj _ =>
      (match jgetT b "novelid" <|> jgetT b "bookId" <|> jgetT b "id" with
       | some nid =>
         if acc.length < maxWorkers then
           collectBookUrls maxWorkers (acc ++ [bookDetailUrl (pyStr nid)]) rest
         else collectBookUrls maxWorkers acc rest
       | none => collectBookUrls maxWorkers acc rest)
    | _ => (acc, true)

/-- One search strategy over the shared `book_urls` list (`acc`): build
the URL, consult the oracle, extract the books container, run the
collecting loop.  The first component is `some urls` when the strategy
returned (`if books:` truthy and no exception inside the loop) and
`none` on a fall-through; the second is the `book_urls` list as the
strategy leaves it (a mid-loop raise keeps its partial appends, a
truthy non-list container raises before any append). -/
def searchStrategy (respond : String → Option JValue) (maxWorkers : Nat)
    (acc : List String) (url : String) : Option (List String) × List String :=
  match respond url with
  | none => (none, acc)
  | some data =>
    match extract_books_from_json data with
    | .error _ => (none, acc)
    | .ok books =>
      if truthy books = false then (none, acc)
      else
        match books with
        | .arr bs =>
          (match collectBookUrls maxWorkers acc bs with
           | (acc2, true) => (none, acc2)
           | (acc2, false) => (some acc2, acc2))
        | _ => (none, acc)

/-- `search_via_app_api(query, search_type)`: without a sid the method
returns the empty list before building any URL; otherwise it tries
`searchV3` and then `androidapi/search`, both appending to the shared
`book_urls` list, which the final `return book_urls` hands back even
after two fall-throughs.  Returns `(requested URLs, book detail
URLs)`. -/
def search_via_app_api (sid : Option String) (maxWorkers : Nat)
    (respond : String → Option JValue) (query : String) (searchType : Int) :
    List String × List String :=
  if !sidTruthy sid then ([], [])
  else
    let tok := (sid.getD "")
    let url1 := JINJIANG_SEARCH_APP_URL ++ "?" ++
      urlencode [("keyword", query), ("type", intStr searchType), ("page", "1"), ("token", tok)]
    match searchStrategy respond maxWorkers [] url1 with
    | (some urls, _) => ([url1], urls)
    | (none, acc1) =>
      let url2 := JINJIANG_SEARCH_APP_ANDROID_API ++ "?" ++
        urlencode [("versionCode", "282"), ("keyword", query), ("type", intStr searchType),
                   ("page", "1"), ("token", tok)]
      match searchStrategy respond maxWorkers acc1 url2 with
      | (some urls, _) => ([url1, url2], urls)
      | (none, acc2) => ([url1, url2], acc2)

/-- `search_via_web`: web search has been removed; unconditionally the
empty list. -/
def search_via_web (query : String) (searchType : Int) : List String :=
  []

/-- `load_book_urls_new`: classify the keyword, then search via the
APP API only. -/
def load_book_urls_new (sid : Option String) (maxWorkers : Nat)
    (respond : String → Option JValue) (query : String) :
    List String × List String :=
  let (q, searchType) := parse_search_keyword query
  search_via_app_api sid maxWorkers respond q searchType

/-- `search_books(query, authors)`: optionally augment the query with
the author names, search, then fan out one `load_book` per URL.  The
thread-pool collection order (`as_completed`) is not guaranteed by the
source; the model keeps submission order, which has the same set of
results. -/
def search_books (sid : Option String) (maxWorkers : Nat)
    (searchWithAuthor : Bool) (respond : String → Option JValue)
    (loadBook : String → Option JValue) (query : String) (authors : List String) :
    List String × List JValue :=
  let q := if searchWithAuthor && !authors.isEmpty
    then query ++ " " ++ joinSep " " authors else query
  let (tried, urls) := load_book_urls_new sid maxWorkers respond q
  (tried, urls.filterMap loadBook)

/-! ## `get_book_url` and the `identify` dispatch -/

/-- `identifiers.get(PROVIDER_ID)` over the Calibre identifiers dict. -/
def idLookup (k : String) : List (String × String) → Option String
  | [] => none
  | (k0, v) :: rest => if k0 = k then some v else idLookup k rest

/-- `get_book_url(identifiers)`: a truthy Jinjiang id yields
`(PROVIDER_ID, id, detail URL)`. -/
def get_book_url (identifiers : List (String × String)) :
    Option (String × String × String) :=
  match idLookup PROVIDER_ID identifiers with
  | some jid => if jid ≠ "" then some (PROVIDER_ID, jid, bookDetailUrl jid) else none
  | none => none

/-- The three ways `identify` can dispatch: a direct by-id detail
fetch, the no-input early return, or the title/author search stage
(whose later author-only and variation retries all go through
`search_books` as well). -/
inductive IdentifyFlow where
  | byId (url : String)
  | noQuery
  | searchStage (primaryQuery : String) (authors : List String)

/-- The dispatch logic at the top of `identify` (lines 1760-1781 of the
source): an external id short-circuits to one `load_book`; otherwise a
missing title and authors aborts; otherwise the search stage runs with
`cleaned_title or ' '.join(cleaned_authors)`. -/
def identifyFlow (identifiers : List (String × String)) (title : Option String)
    (authors : List String) : IdentifyFlow :=
  match get_book_url identifiers with
  | some (_, _, url) => .byId url
  | none =>
    let titleTruthy : Bool := match title with
      | some t => t != ""
      | none => false
    if !titleTruthy && authors.isEmpty then .noQuery
    else
      let cleanedTitle := match title with
        | some t => if t ≠ "" then normalize_query t else ""
        | none => ""
      let cleanedAuthors := authors.map normalize_query
      let q := if cleanedTitle ≠ "" then cleanedTitle else joinSep " " cleanedAuthors
      .searchStage q authors

/-- Whether a flow ever invokes the search stage
(`search_books`/`load_book_urls_new`). -/
def searchStageInvoked : IdentifyFlow → Bool
  | .searchStage _ _ => true
  | _ => false

/-- The detail URLs fetched directly (without a search) by a flow. -/
def directDetailFetches : IdentifyFlow → List String
  | .byId url => [url]
  | _ => []

/-! ## Schema-tolerant extractors

`fetch_and_merge_other_info` carries its own `pick` helper;
`parse_app_book_data` carries `_pick_from` with key-variant
generation.  Both recurse into nested envelope objects. -/

/-- Case-insensitive lookup through the `{str(k).lower(): k}` map
(a dict comprehension, so for equal lowered keys the last wins), then
`obj.get` of the recovered original key. -/
def lowLookup (fs : List (String × JValue)) (lk : String) : Option JValue :=
  match fs.reverse.find? (fun p => lowerS p.1 == lk) with
  | some p => jlookup p.1 fs
  | none => none

/-- The per-key direct/ci loop of the enrichment `pick`. -/
def pickDirect (fs : List (String × JValue)) : List String → Option JValue
  | [] => none
  | k :: rest =>
    let ci : Option JValue :=
      match lowLookup fs (lowerS k) with
      | some v => if truthy v then some v else none
      | none => none
    match jgetT (.obj fs) k with
    | some v => some v
    | none =>
      match ci with
      | some w => some w
      | none => pickDirect fs rest

mutual
/-- The `pick(obj, *keys)` helper of `fetch_and_merge_other_info`:
exact match, case-insensitive match, recursion into the
`data`/`a`/`novel`/`result` envelopes, then the first list element;
falsy input yields `''`. -/
def pick (obj : JValue) (keys : List String) : JValue :=
  if truthy obj = false then .str ""
  else
    match (match obj with
           | .obj fs => pickDirect fs keys
           | _ => none) with
    | some v => v
    | none => pickNestLoop obj keys ["data", "a", "novel", "result"]
termination_by (8 * sizeOf obj + 5, 0)
decreasing_by all_goals simp_wf <;> omega

def pickNestLoop (obj : JValue) (keys : List String) : List String → JValue
  | [] =>
    (match obj with
     | .arr (h :: _) => pick h keys
     | _ => .str "")
  | nk :: rest =>
    match hn : jgetT obj nk with
    | some nested =>
      let v := pick nested keys
      if truthy v then v else pickNestLoop obj keys rest
    | none => pickNestLoop obj keys rest
termination_by nks => (8 * sizeOf obj + nks.length, 0)
decreasing_by all_goals
  have hjl : ∀ (kk : String) {fs : List (String × JValue)} {v : JValue},
      jlookup kk fs = some v → sizeOf v < sizeOf fs := by
    intro kk fs
    induction fs with
    | nil => intro v hh; simp [jlookup] at hh
    | cons p rest ih =>
      intro v hh
      simp only [jlookup] at hh
      split at hh
      · cases hh; cases p; simp; omega
      · have := ih hh; simp; omega
  have hjg : ∀ {obj v : JValue} {kk : String},
      jget obj kk = some v → sizeOf v < sizeOf obj := by
    intro obj v kk hh
    unfold jget at hh
    cases obj with
    | null => cases hh
    | bool b => cases hh
    | num n => cases hh
    | str s => cases hh
    | arr xs => cases hh
    | obj fs =>
      have := hjl kk hh
      simp
      omega
  have hjgt : ∀ {obj v : JValue} {kk : String},
      jgetT obj kk = some v → sizeOf v < sizeOf obj := by
    intro obj v kk hh
    unfold jgetT at hh
    split at hh
    · rename_i w hw
      split at hh
      · cases hh; exact hjg hw
      · cases hh
    · cases hh
  simp_wf
  first
  | (have hs := hjgt hn; simp at hs ⊢; omega)
  | (simp; omega)
  | omega
end

/-- `dict.fromkeys`-style first-occurrence dedup for the key-variant
set (the source uses a Python set; iteration order of a string set is
unspecified, insertion order is used here — no field in the data has
two distinct truthy values under variant keys of the same name). -/
def dedupFirst (l : List String) : List String :=
  go [] l
where
  go (seen : List String) : List String → List String
    | [] => []
    | x :: rest => if seen.contains x then go seen rest else x :: go (x :: seen) rest

def upperC (c : Char) : Char :=
  if 'a' ≤ c && c ≤ 'z' then Char.ofNat (c.toNat - 32) else c

/-- Python `str.capitalize()`: first character uppercased, the rest
lowercased. -/
def capitalizeS (s : String) : String :=
  match s.data with
  | [] => ""
  | c :: rest => ⟨upperC c :: lowerL rest⟩

/-- `'a_b_c'.split('_')` (keeps empty parts). -/
def splitOnChar (sep : Char) (l : List Char) : List (List Char) :=
  match h : splitFirst sep l with
  | none => [l]
  | some rest => l.takeWhile (fun c => c ≠ sep) :: splitOnChar sep rest
termination_by l.length
decreasing_by
  have hsl : ∀ (cc : Char) {xs r : List Char},
      splitFirst cc xs = some r → r.length < xs.length := by
    intro cc xs
    induction xs with
    | nil => intro r hh; simp [splitFirst] at hh
    | cons y ys ih =>
      intro r hh
      simp only [splitFirst] at hh
      split at hh
      · cases hh; simp
      · exact Nat.lt_trans (ih hh) (by simp)
  exact hsl _ h

/-- `''.join([p.capitalize() if i>0 else p for i,p in enumerate(k.split('_'))])`. -/
def capJoin (k : String) : String :=
  match (splitOnChar '_' k.data).map (fun p => (⟨p⟩ : String)) with
  | [] => ""
  | p0 :: rest => p0 ++ joinSep "" (rest.map capitalizeS)

def delChar (sep : Char) (s : String) : String :=
  ⟨s.data.filter (fun c => c ≠ sep)⟩

/-- `key_variants(k)`: the variant set of `parse_app_book_data`,
in insertion order, deduplicated (the `camel` variant recomputes the
same string as the capitalize-join one, which the set absorbs). -/
def key_variants (k : String) : List String :=
  if k = "" then []
  else
    dedupFirst ([k, lowerS k, capJoin k, delChar '_' k, lowerS (delChar '_' k),
                 delChar ' ' k] ++
                (if k.data.contains '_' then [capJoin k] else []))

/-- `for cand in key_variants(k): if cand in obj and obj[cand]: ...`. -/
def firstVariantHit (fs : List (String × JValue)) : List String → Option JValue
  | [] => none
  | cand :: rest =>
    match jgetT (.obj fs) cand with
    | some v => some v
    | none => firstVariantHit fs rest

def pickFromDirect (fs : List (String × JValue)) : List String → Option JValue
  | [] => none
  | k :: rest =>
    match firstVariantHit fs (key_variants k) with
    | some v => some v
    | none => pickFromDirect fs rest

/-- The second, case-insensitive pass of `_pick_from`. -/
def pickFromCI (fs : List (String × JValue)) : List String → Option JValue
  | [] => none
  | k :: rest =>
    match lowLookup fs (lowerS k) with
    | some v => if truthy v then some v else pickFromCI fs rest
    | none => pickFromCI fs rest

mutual
/-- `_pick_from(obj, *keys)` of `parse_app_book_data`: key-variant
match, case-insensitive match, recursion into
`book`/`novel`/`data`/`result` (a nested list recurses on its head),
then the first element of a list input. -/
def pickFrom (obj : JValue) (keys : List String) : JValue :=
  if truthy obj = false || keys.isEmpty then .str ""
  else
    match (match obj with
           | .obj fs =>
             (match pickFromDirect fs keys with
              | some v => some v
              | none => pickFromCI fs keys)
           | _ => none) with
    | some v => v
    | none => pickFromNests obj keys ["book", "novel", "data", "result"]
termination_by (8 * sizeOf obj + 5, 0)
decreasing_by all_goals simp_wf <;> omega

def pickFromNests (obj : JValue) (keys : List String) : List String → JValue
  | [] =>
    (match obj with
     | .arr (h :: _) => pickFrom h keys
     | _ => .str "")
  | nk :: rest =>
    match hn : jget obj nk with
    | some (.obj nfs) =>
      let v := pickFrom (.obj nfs) keys
      if truthy v then v else pickFromNests obj keys rest
    | some (.arr (h :: t)) =>
      let v := pickFrom h keys
      if truthy v then v else pickFromNests obj keys rest
    | some _ => pickFromNests obj keys rest
    | none => pickFromNests obj keys rest
termination_by nks => (8 * sizeOf obj + nks.length, 0)
decreasing_by all_goals
  have hjl : ∀ (kk : String) {fs : List (String × JValue)} {v : JValue},
      jlookup kk fs = some v → sizeOf v < sizeOf fs := by
    intro kk fs
    induction fs with
    | nil => intro v hh; simp [jlookup] at hh
    | cons p rest ih =>
      intro v hh
      simp only [jlookup] at hh
      split at hh
      · cases hh; cases p; simp; omega
      · have := ih hh; simp; omega
  have hjg : ∀ {obj v : JValue} {kk : String},
      jget obj kk = some v → sizeOf v < sizeOf obj := by
    intro obj v kk hh
    unfold jget at hh
    cases obj with
    | null => cases hh
    | bool b => cases hh
    | num n => cases hh
    | str s => cases hh
    | arr xs => cases hh
    | obj fs =>
      have := hjl kk hh
      simp
      omega
  have hjgt : ∀ {obj v : JValue} {kk : String},
      jgetT obj kk = some v → sizeOf v < sizeOf obj := by
    intro obj v kk hh
    unfold jgetT at hh
    split at hh
    · rename_i w hw
      split at hh
      · cases hh; exact hjg hw
      · cases hh
    · cases hh
  simp_wf
  first
  | (have hs := hjg hn; simp at hs ⊢; omega)
  | (simp; omega)
  | omega
end

/-! ## The book record -/

def PROVIDER_NAME : String := "Jinjiang Books"

/-- The constant `book['source']` dict. -/
def sourceJ : JValue :=
  .obj [("id", .str PROVIDER_ID), ("description", .str PROVIDER_NAME),
        ("link", .str JINJIANG_BASE_URL)]

/-- The book dict assembled by `parse_app_book_data` /
`JinjiangBookHtmlParser.parse_book` and mutated by
`fetch_and_merge_other_info`.  A missing key and a falsy default are
indistinguishable to every `get`-chain in the source, so fields absent
at some point of the lifecycle carry their falsy default. -/
structure Book where
  id : String := ""
  title : String := ""
  authors : List String := []
  url : String := ""
  cover : String := ""
  description_html : String := ""
  description : String := ""
  tags : List String := []
  publishedDate : String := ""
  status : JValue := .str ""
  word_count : JValue := .num 0
  chapters : Option Int := none
  vip_start : Option Int := none
  comments : String := ""

/-- The book dict as a `pick` source (`sources.append(book)`). -/
def bookToJ (b : Book) : JValue :=
  .obj [("id", .str b.id), ("title", .str b.title),
        ("authors", .arr (b.authors.map .str)),
        ("url", .str b.url), ("cover", .str b.cover),
        ("description_html", .str b.description_html),
        ("description", .str b.description),
        ("tags", .arr (b.tags.map .str)),
        ("publishedDate", .str b.publishedDate),
        ("status", b.status), ("word_count", b.word_count),
        ("chapters", match b.chapters with | some n => .num n | none => .null),
        ("vip_start", match b.vip_start with | some n => .num n | none => .null),
        ("source", sourceJ),
        ("comments", .str b.comments)]

/-! ## Shared small helpers of the two record builders -/

/-- The author/tag delimiter class `[,&/;，、\s]+`. -/
def isDelimChar (c : Char) : Bool :=
  c == ',' || c == '&' || c == '/' || c == ';' || c == '，' || c == '、' || isPySpace c

/-- A stripped part, kept only when non-empty (the
`[x.strip() for x in parts if x.strip()]` idiom). -/
def stripKeep (part : List Char) : List String :=
  let st := pyStripL part
  if st.isEmpty then [] else [⟨st⟩]

/-- Split off the piece before the first `p`-delimiter run and the
remainder after that maximal run (`none` when no delimiter occurs). -/
def splitFirstP (p : Char → Bool) (l : List Char) : Option (List Char × List Char) :=
  if (l.dropWhile (fun c => !p c)).isEmpty then none
  else some (l.takeWhile (fun c => !p c), (l.dropWhile (fun c => !p c)).dropWhile p)

/-- `re.split(cls+, s)` followed by per-part `strip()` and dropping of
empty parts (the splitter groups maximal delimiter runs). -/
def splitDelims (l : List Char) : List String :=
  match h : splitFirstP isDelimChar l with
  | none => stripKeep l
  | some (part, rest) => stripKeep part ++ splitDelims rest
termination_by l.length
decreasing_by
  have hdw : ∀ (q : Char → Bool) (m : List Char), (m.dropWhile q).length ≤ m.length := by
    intro q m
    induction m with
    | nil => simp [List.dropWhile]
    | cons a as ih =>
      simp only [List.dropWhile]
      split
      · exact Nat.le_trans ih (by simp)
      · simp
  have hhd : ∀ (q : Char → Bool) (m : List Char) (a : Char) (t : List Char),
      m.dropWhile q = a :: t → q a = false := by
    intro q m
    induction m with
    | nil => intro a t hh; simp [List.dropWhile] at hh
    | cons x xs ih =>
      intro a t hh
      simp only [List.dropWhile] at hh
      split at hh
      · exact ih a t hh
      · cases hh; rename_i hq; simpa using hq
  unfold splitFirstP at h
  split at h
  · cases h
  · rename_i hne
    cases h
    cases hm : l.dropWhile (fun c => !isDelimChar c) with
    | nil => rw [hm] at hne; simp at hne
    | cons c m' =>
      have hc : isDelimChar c = true := by
        have := hhd _ _ _ _ hm
        simpa using this
      have h1 : (c :: m').dropWhile isDelimChar = m'.dropWhile isDelimChar := by
        simp [List.dropWhile, hc]
      rw [h1]
      have h2 : (m'.dropWhile isDelimChar).length ≤ m'.length := hdw isDelimChar m'
      have h3 : (c :: m').length ≤ l.length := by
        rw [← hm]
        exact hdw _ l
      simp at h3
      omega

/-- `s.split(',')` + strip + drop-empty, for the plain comma split of
the `tags` field. -/
def splitCommas (l : List Char) : List String :=
  match h : splitFirst ',' l with
  | none => stripKeep l
  | some rest => stripKeep (l.takeWhile (fun c => c ≠ ',')) ++ splitCommas rest
termination_by l.length
decreasing_by
  have hsl : ∀ (cc : Char) {xs r : List Char},
      splitFirst cc xs = some r → r.length < xs.length := by
    intro cc xs
    induction xs with
    | nil => intro r hh; simp [splitFirst] at hh
    | cons y ys ih =>
      intro r hh
      simp only [splitFirst] at hh
      split at hh
      · cases hh; simp
      · exact Nat.lt_trans (ih hh) (by simp)
  exact hsl _ h

/-- `s.replace(pat, rep)` for a multi-character pattern
(non-overlapping, left to right); the pattern is `p0 :: ptail`. -/
def replaceSub (p0 : Char) (ptail rep : List Char) : List Char → List Char
  | [] => []
  | x :: rest =>
    if isPfx (p0 :: ptail) (x :: rest) then
      rep ++ replaceSub p0 ptail rep (rest.drop ptail.length)
    else x :: replaceSub p0 ptail rep rest
termination_by l => l.length
decreasing_by
  · simp
    omega
  · simp

/-- `s.replace(pat, rep)` on strings (identity for an empty pattern,
which never occurs in the source). -/
def replaceSubS (pat rep s : String) : String :=
  match pat.data with
  | [] => s
  | p0 :: ptail => ⟨replaceSub p0 ptail rep.data s.data⟩

/-- JSON string escaping for `json.dumps(..., ensure_ascii=False)`. -/
def jsonEscChar (c : Char) : List Char :=
  if c = '"' then ['\\', '"']
  else if c = '\\' then ['\\', '\\']
  else if c = '\n' then ['\\', 'n']
  else if c = '\t' then ['\\', 't']
  else if c = '\r' then ['\\', 'r']
  else if c.toNat < 0x20 then
    ['\\', 'u', '0', '0', hexDigit (c.toNat / 16), hexDigit (c.toNat % 16)]
  else [c]

mutual
/-- `json.dumps(v, ensure_ascii=False)` with the default separators. -/
def jsonDumps : JValue → String
  | .null => "null"
  | .bool true => "true"
  | .bool false => "false"
  | .num n => intStr n
  | .str s => ⟨'"' :: s.data.flatMap jsonEscChar ++ ['"']⟩
  | .arr xs => "[" ++ joinSep ", " (jsonDumpsList xs) ++ "]"
  | .obj fs => "\x7b" ++ joinSep ", " (jsonDumpsObj fs) ++ "\x7d"

def jsonDumpsList : List JValue → List String
  | [] => []
  | x :: rest => jsonDumps x :: jsonDumpsList rest

def jsonDumpsObj : List (String × JValue) → List String
  | [] => []
  | (k, v) :: rest =>
    ((⟨'"' :: k.data.flatMap jsonEscChar ++ ['"']⟩ : String) ++ ": " ++ jsonDumps v) ::
      jsonDumpsObj rest
end

/-- `re.search(r"(\d+)", s)`: the first digit run. -/
def firstDigitRun : List Char → Option (List Char)
  | [] => none
  | c :: rest =>
    if isAsciiDigit c then some (c :: rest.takeWhile isAsciiDigit)
    else firstDigitRun rest

/-- `s.rstrip('\n')`. -/
def rstripNl (s : String) : String := ⟨dropTrail (fun c => c == '\n') s.data⟩

/-- `re.sub(r'^(主角|配角|其它|其他)[:：]\s*', '', txt)`: strip one
leading role marker with its colon and following whitespace. -/
def stripRoleMarker (l : List Char) : List Char :=
  let tryOne : String → Option (List Char) := fun m =>
    if isPfx m.data l then
      match l.drop m.data.length with
      | c :: rest => if c = ':' || c = '：' then some (rest.dropWhile isPySpace) else none
      | [] => none
    else none
  match tryOne "主角" with
  | some r => r
  | none =>
  match tryOne "配角" with
  | some r => r
  | none =>
  match tryOne "其它" with
  | some r => r
  | none =>
  match tryOne "其他" with
  | some r => r
  | none => l

/-- `clean_role(val)`: empty for falsy input, else the marker-stripped
plain text. -/
def clean_role (v : JValue) : String :=
  if truthy v = false then ""
  else ⟨stripRoleMarker (html_to_text (pyStr v)).data⟩

/-- The runs of Unicode decimal digits (category `Nd`, what Python's
`\d` in a `str` pattern and `int()` accept), as `(first code point,
length)`; every run is made of aligned decades, each starting at its
script's digit zero (the long mathematical run holds five decades). -/
def ndRuns : List (Nat × Nat) :=
  [(0x30, 10), (0x660, 10), (0x6F0, 10), (0x7C0, 10), (0x966, 10), (0x9E6, 10),
   (0xA66, 10), (0xAE6, 10), (0xB66, 10), (0xBE6, 10), (0xC66, 10), (0xCE6, 10),
   (0xD66, 10), (0xDE6, 10), (0xE50, 10), (0xED0, 10), (0xF20, 10), (0x1040, 10),
   (0x1090, 10), (0x17E0, 10), (0x1810, 10), (0x1946, 10), (0x19D0, 10),
   (0x1A80, 10), (0x1A90, 10), (0x1B50, 10), (0x1BB0, 10), (0x1C40, 10),
   (0x1C50, 10), (0xA620, 10), (0xA8D0, 10), (0xA900, 10), (0xA9D0, 10),
   (0xA9F0, 10), (0xAA50, 10), (0xABF0, 10), (0xFF10, 10), (0x104A0, 10),
   (0x10D30, 10), (0x11066, 10), (0x110F0, 10), (0x11136, 10), (0x111D0, 10),
   (0x112F0, 10), (0x11450, 10), (0x114D0, 10), (0x11650, 10), (0x116C0, 10),
   (0x11730, 10), (0x118E0, 10), (0x11950, 10), (0x11C50, 10), (0x11D50, 10),
   (0x11DA0, 10), (0x16A60, 10), (0x16AC0, 10), (0x16B50, 10), (0x1D7CE, 50),
   (0x1E140, 10), (0x1E2F0, 10), (0x1E950, 10), (0x1FBF0, 10)]

/-- The decimal value of a Unicode decimal digit, `none` for any other
character (`unicodedata.decimal`, the digit semantics of `\d`-matched
strings under `int()`). -/
def uniDigitVal (c : Char) : Option Nat :=
  let n := c.toNat
  match ndRuns.find? (fun r => r.1 ≤ n && n < r.1 + r.2) with
  | some r => some ((n - r.1) % 10)
  | none => none

/-- Python's `\d` on a `str`: any Unicode decimal digit. -/
def isUniDigit (c : Char) : Bool := (uniDigitVal c).isSome

/-- `re.match(r"^\d+$", s)` on an already-stripped string: non-empty
and Unicode-decimal-digits only (stripping has removed any trailing
newline the `$` could otherwise sit before). -/
def uniDigits (l : List Char) : Bool := l ≠ [] && l.all isUniDigit

/-- `int(s)` of a `\d+`-matched string: positional decimal over the
digits' Unicode decimal values. -/
def uniDigitsToNat (l : List Char) : Nat :=
  l.foldl (fun acc c => acc * 10 + (uniDigitVal c).getD 0) 0

/-- The signed-contract block of `fetch_and_merge_other_info` (lines
926-959 plus the final default): maps the picked `isSign` value to the
label `已签约` or `未签约`; the label is never empty. -/
def signedDisplayOf (is_sign : JValue) : String :=
  let raw := pyStrip (pyStr is_sign)
  if raw = "" then "未签约"
  else
    let signedFlag : Bool :=
      match is_sign with
      | .bool b => b
      | _ =>
        let lr := lowerS raw
        if lr = "1" || lr = "true" || lr = "yes" then true
        else uniDigits raw.data && decide (0 < uniDigitsToNat raw.data)
    if signedFlag then "已签约" else "未签约"

/-- `x.get(k1) or x.get(k2) or ... or ''` over an object. -/
def orChain (v : JValue) : List String → JValue
  | [] => .str ""
  | k :: rest =>
    match jgetT v k with
    | some w => w
    | none => orChain v rest

/-- The `novelLeave`/`leave`/`novelleave` source scan. -/
def firstTruthyKeyJ (src : JValue) : List String → Option JValue
  | [] => none
  | k :: rest =>
    match jgetT src k with
    | some v => some v
    | none => firstTruthyKeyJ src rest

def firstLeave : List JValue → Option JValue
  | [] => none
  | s :: rest =>
    match firstTruthyKeyJ s ["novelLeave", "leave", "novelleave"] with
    | some v => some v
    | none => firstLeave rest

/-- `pick_any(*keys)`: scan the prioritized sources; a string hit is
stripped and must be non-empty, any other non-`None` value is returned
as is. -/
def pickAny (sources : List JValue) (keys : List String) : JValue :=
  match sources with
  | [] => .str ""
  | src :: rest =>
    match pick src keys with
    | .str s => if pyStrip s ≠ "" then .str (pyStrip s) else pickAny rest keys
    | .null => pickAny rest keys
    | v => v

/-! ## `fetch_and_merge_other_info`

The HTTP request to `getnovelOtherInfo` is modelled by `fetched`:
`.error ()` stands for any exception raised while building the URL,
issuing the request, or checking the status (the source also plain-
returns on a non-2xx status, which is observationally the same); on
success `.ok data` carries the `json.loads` result (`JValue.null` when
the body failed to parse).  The post-fetch processing is translated
below in full and is total, matching the source, whose inner
`try`/`except` blocks can never fire on JSON-shaped data.  The `book`
dict is mutated in place by the source; the model threads the updated
record through the later `pick_any` calls, which see the mutations via
the aliased `sources` list. -/

/-- The `other = data[k] for the first truthy of data/a/novelLeave/novel/result`
unwrapping, else the whole payload; a list yields its first element. -/
def unwrapOther (data : JValue) : JValue :=
  match data with
  | .obj fs =>
    (match firstTruthyKeyJ data ["data", "a", "novelLeave", "novel", "result"] with
     | some v => v
     | none => data)
  | .arr (h :: _) => h
  | _ => data

/-- The `leave_display` block: best-effort field reads on the leave
object (a non-dict raises inside the `try`, giving `''`). -/
def leaveDisplayOf (leave_obj : Option JValue) : String :=
  match leave_obj with
  | none => ""
  | some lo =>
    match lo with
    | .obj _ =>
      let ld_back := orChain lo ["leaveDateBack", "leave_date_back"]
      let ld := orChain lo ["leaveDate", "leaveDateStr", "leave_date"]
      let lcont := orChain lo ["leaveContent", "leave_content"]
      let leave_lines := [ld_back, lcont, ld].filterMap
        (fun v => if truthy v then some (pyStr v) else none)
      if leave_lines ≠ [] then joinSep "\n" leave_lines ++ "\n&lrm;\n" else ""
    | _ => ""

/-- The category-merge block: `novel_class`, when truthy, is prepended
to the tag list (collapsing near-duplicates by strip comparison).  An
unhashable value (list/dict) raises inside the set-dedup loop, whose
`except` overwrites the tags with `[novel_class]` alone.  The tag list
is `List String`, so a non-string head appears as its `str()` form (the
source keeps the raw object in the Python list; every later read goes
through `str`). -/
def mergeClass (novel_class : JValue) (book : Book) : Book :=
  if truthy novel_class then
    match novel_class with
    | .arr _ => { book with tags := [pyStr novel_class] }
    | .obj _ => { book with tags := [pyStr novel_class] }
    | _ =>
      let ncStr := pyStr novel_class
      let merged := ncStr :: book.tags.filter
        (fun t => pyStrip t ≠ "" && pyStrip t ≠ pyStrip ncStr)
      { book with tags := dedupFirst (merged.filter (fun t => t ≠ "")) }
  else book

/-- The extended-synopsis block: a truthy intro is appended to the
comments (after a blank line when comments already exist). -/
def appendIntro (intro : JValue) (intro_txt0 : String) (book1 : Book) : Book :=
  if truthy intro then
    (if book1.comments ≠ "" then
      { book1 with comments := pyStrip book1.comments ++ "\n\n" ++ intro_txt0 }
     else { book1 with comments := intro_txt0 })
  else book1

/-- The tag-list merge block: new parsed tags are appended to the
existing tags and the union deduplicated. -/
def mergeTagList (parsed_tags : List String) (book2 : Book) : Book :=
  if parsed_tags ≠ [] then
    let merged := book2.tags ++ parsed_tags.filter (fun t => !book2.tags.contains t)
    { book2 with tags := dedupFirst (merged.filter (fun t => t ≠ "")) }
  else book2

/-- The final merge of the assembled enrichment lines into the
description fields (`description_html` joined with `<br>`,
`description` with newlines). -/
def mergeDescriptions (lines : List String) (book3 : Book) : Book :=
  if lines = [] then book3
  else
    let extra_html := joinSep "<br>" (lines.map (replaceSubS "\n" "<br>"))
    let extra_text := joinSep "\n" lines
    let exist_html :=
      if book3.description_html ≠ "" then book3.description_html else book3.description
    let book4 :=
      if exist_html ≠ "" then
        { book3 with description_html := exist_html ++ "<br><br>" ++ extra_html }
      else { book3 with description_html := extra_html }
    if book3.description ≠ "" then
      { book4 with description := book3.description ++ "\n\n" ++ extra_text }
    else { book4 with description := extra_text }

def fetch_and_merge_other_info (novelid : String) (fetched : Except Unit JValue)
    (base_data : Option JValue) (book : Book) : Book :=
  if novelid = "" then book
  else
    match fetched with
    | .error _ => book
    | .ok data =>
      let other := unwrapOther data
      if truthy other = false then book
      else
        -- the non-book sources; the book itself is appended at each use
        -- (the Python list aliases the mutating dict)
        let srcHead : List JValue :=
          (match other with | .obj _ => [other] | _ => []) ++
          (match base_data with
           | some (.obj bfs) => [.obj bfs]
           | _ => [])
        let pickA := fun (bk : Book) (keys : List String) =>
          pickAny (srcHead ++ [bookToJ bk]) keys
        -- author's note
        let leave_obj := firstLeave (srcHead ++ [bookToJ book])
        let leave_display := leaveDisplayOf leave_obj
        -- category merged into tags
        let novel_class := pickA book ["novelClass", "novel_class", "category"]
        let book1 := mergeClass novel_class book
        -- word count (lists/dicts are flattened through json.dumps)
        let novel_size0 := pickA book1
          ["novelSize", "novel_size", "novelSizeShow", "novelsizeformat", "word_count", "words"]
        let novel_size : JValue :=
          match novel_size0 with
          | .arr _ => .str (html_to_text (jsonDumps novel_size0))
          | .obj _ => .str (html_to_text (jsonDumps novel_size0))
          | v => v
        let novip_clicks := pickA book1 ["novip_clicks", "novipClicks", "novipClick", "novipclicks"]
        let novel_score := pickA book1 ["novelScore", "score", "novelscore"]
        -- signed-contract flag
        let is_sign := pickA book1 ["isSign", "is_sign", "issign"]
        let signed_display := signedDisplayOf is_sign
        -- favourites / ranking / nutrition
        let befav0 := pickA book1 ["novelbefavoritedcount", "befavoritedcount", "favoriteCount"]
        let nutrition := pickA book1 ["nutrition_novel", "nutrition", "nutritionNovel"]
        let ranking_raw := pickA book1 ["ranking", "rank", "ranking_str"]
        let ranking_number0 : String :=
          if truthy ranking_raw then
            match firstDigitRun (pyStr ranking_raw).data with
            | some ds => ⟨ds⟩
            | none => ""
          else ""
        let befav : String := if truthy befav0 then pyStr befav0 else "0"
        let ranking_number := if ranking_number0 = "" then "暂无排名" else ranking_number0
        let nutrition_display := if truthy nutrition then pyStr nutrition else "0"
        -- extended synopsis, appended to comments
        let intro := pickA book1
          ["novelIntro", "novelintro", "novelIntroShort", "novelIntroShortHtml", "description", "desc"]
        let intro_txt0 := html_to_text (pyStr intro)
        let book2 := appendIntro intro intro_txt0 book1
        let intro_txt := replaceSubS "立意 :" "立意：" (replaceSubS "立意:" "立意：" intro_txt0)
        -- tag list merged into tags
        let tags_raw := pickA book2 ["novelTags", "novel_tags", "tags"]
        let parsed_tags : List String :=
          match tags_raw with
          | .str s => splitDelims s.data
          | .arr xs => xs.filterMap (fun t =>
              let st := pyStrip (pyStr t)
              if st ≠ "" then some st else none)
          | _ => []
        let book3 := mergeTagList parsed_tags book2
        let tags_line := if parsed_tags ≠ [] then "标签：" ++ joinSep "&nbsp;" parsed_tags else ""
        -- characters
        let prot := pickA book3 ["protagonist", "protagonists", "主角"]
        let costar := pickA book3 ["costar", "coStar", "配角"]
        let other_roles := pickA book3 ["other", "others"]
        let prot_clean := clean_role prot
        let costar_clean := clean_role costar
        let other_clean := clean_role other_roles
        let role_parts :=
          (if prot_clean ≠ "" then ["主角：" ++ prot_clean] else []) ++
          (if costar_clean ≠ "" then ["配角：" ++ costar_clean] else []) ++
          (if other_clean ≠ "" then ["其它：" ++ other_clean] else [])
        let roles_comb := joinSep "" role_parts
        -- style / viewpoint / series
        let style := pickA book3 ["novelStyle", "style"]
        let mainview := pickA book3 ["mainview", "view"]
        let series := pickA book3 ["series"]
        let style_line :=
          if truthy style || truthy mainview then
            "风格：" ++ (if truthy style then pyStr style else "") ++
            "&nbsp;&nbsp;&nbsp;&nbsp;视角：" ++ (if truthy mainview then pyStr mainview else "")
          else ""
        let series_line := if truthy series then "所属：" ++ pyStr series else ""
        -- the fixed-layout enrichment block
        let first_line := leave_display ++
          (if truthy novel_class then "文章类型：" ++ pyStr novel_class else "")
        let lines :=
          (if first_line ≠ "" then [first_line]
           else if leave_display ≠ "" then [rstripNl leave_display] else []) ++
          (if truthy novel_size then ["全文字数：" ++ pyStr novel_size] else []) ++
          (if truthy novip_clicks then ["非V点击：" ++ pyStr novip_clicks] else []) ++
          (if truthy novel_score then ["文章积分：" ++ pyStr novel_score] else []) ++
          (if signed_display ≠ "" then ["签约状态：" ++ signed_display] else []) ++
          ["&lrm;",
           "⭐&nbsp;" ++ befav ++ "丨👍&nbsp;No." ++ ranking_number ++ "丨🍼&nbsp;" ++ nutrition_display,
           "&lrm;"] ++
          (if truthy intro && intro_txt ≠ "" then [intro_txt, "&lrm;"] else []) ++
          (if tags_line ≠ "" then [tags_line] else []) ++
          (if roles_comb ≠ "" then [roles_comb] else []) ++
          (if style_line ≠ "" then [style_line] else []) ++
          (if series_line ≠ "" then [series_line] else [])
        -- merge into the description fields
        mergeDescriptions lines book3

/-! ## `parse_app_book_data` -/

def rstripSlash (s : String) : String := ⟨dropTrail (fun c => c == '/') s.data⟩

def lstripSlash (s : String) : String := ⟨s.data.dropWhile (fun c => c == '/')⟩

/-- The final acceptance check of the cover block: the value is kept
only when it is an absolute http(s) URL or a data URI. -/
def coverAccept (cover : String) : String :=
  if cover ≠ "" &&
     (isPfx "http://".data cover.data || isPfx "https://".data cover.data ||
      isPfx "data:".data cover.data) then cover
  else ""

/-- The cover block of `parse_app_book_data` (lines 1370-1381):
protocol-relative covers get `https:`, root-relative covers get the
site origin, bare relative paths get origin plus `/`; the result then
goes through `coverAccept`. -/
def coverNormalize (cover0 : String) : String :=
  let cover := pyStrip cover0
  let cover :=
    if cover ≠ "" then
      if isPfx "//".data cover.data then "https:" ++ cover
      else if isPfx "/".data cover.data then rstripSlash JINJIANG_BASE_URL ++ cover
      else if !isPfx "http://".data cover.data && !isPfx "https://".data cover.data &&
              !isPfx "data:".data cover.data then
        rstripSlash JINJIANG_BASE_URL ++ "/" ++ lstripSlash cover
      else cover
    else cover
  coverAccept cover

def pad2 (n : Nat) : String := if n < 10 then "0" ++ intStr n else intStr n

def pad4 (n : Nat) : String :=
  if n < 10 then "000" ++ intStr n
  else if n < 100 then "00" ++ intStr n
  else if n < 1000 then "0" ++ intStr n
  else intStr n

/-- Proleptic-Gregorian civil date from days since the epoch
(`datetime.fromtimestamp(...).strftime('%Y-%m-%d')`; the source uses
the local timezone, which the model fixes to UTC). -/
def civilFromDays (days : Nat) : Nat × Nat × Nat :=
  let z := days + 719468
  let era := z / 146097
  let doe := z % 146097
  let yoe := (doe - doe / 1460 + doe / 36524 - doe / 146096) / 365
  let y := yoe + era * 400
  let doy := doe - (365 * yoe + yoe / 4 - yoe / 100)
  let mp := (5 * doy + 2) / 153
  let d := doy - (153 * mp + 2) / 5 + 1
  let m := if mp < 10 then mp + 3 else mp - 9
  (if m ≤ 2 then y + 1 else y, m, d)

/-- `datetime.fromtimestamp(ts).strftime('%Y-%m-%d')` for a
nonnegative integer timestamp; `none` for the out-of-range timestamps
on which `fromtimestamp` raises (caught by the source). -/
def epochToDate (ts : Nat) : Option String :=
  let (y, m, d) := civilFromDays (ts / 86400)
  if y ≤ 9999 then some (pad4 y ++ "-" ++ pad2 m ++ "-" ++ pad2 d) else none

/-- The loose date match: four year digits, an optional separator
(dash, slash or 年), up to two month digits, an optional separator
(dash, slash or 月), up to two day digits. -/
def parseYmd (l : List Char) : Option (String × Nat × Nat) :=
  let y := l.take 4
  if y.length = 4 && y.all isAsciiDigit then
    let r1 := l.drop 4
    let r2 := match r1 with
      | c :: rest => if c = '-' || c = '/' || c = '年' then rest else r1
      | [] => r1
    let mo := (r2.takeWhile isAsciiDigit).take 2
    let r3 := r2.drop mo.length
    let r4 := match r3 with
      | c :: rest => if c = '-' || c = '/' || c = '月' then rest else r3
      | [] => r3
    let d := (r4.takeWhile isAsciiDigit).take 2
    some (⟨y⟩, if mo.isEmpty then 1 else digitsToNat mo, if d.isEmpty then 1 else digitsToNat d)
  else none

/-- The `createtime -> publishedDate` normalization: epoch seconds or
milliseconds (by magnitude), else the loose `YYYY-MM-DD`-ish match,
else the raw value unchanged. -/
def parsePublished (createtime : String) : String :=
  if allDigits createtime.data then
    let ts0 := digitsToNat createtime.data
    let ts := if ts0 > 1000000000000 then ts0 / 1000 else ts0
    match epochToDate ts with
    | some s => s
    | none => createtime
  else
    match parseYmd createtime.data with
    | some (y, mo, d) => y ++ "-" ++ pad2 mo ++ "-" ++ pad2 d
    | none => createtime

/-- `int(x or 0)` wrapped in `try`/`except` (`none` = `None`). -/
def pyIntOr0 (v : JValue) : Option Int :=
  pyInt (if truthy v then v else .num 0)

/-- The author-field stringification of `parse_app_book_data`: a
non-empty list is joined with commas, an empty list or a dict goes
through `json.dumps`, anything else through `str`. -/
def authorStrOf (author_field : JValue) : String :=
  match author_field with
  | .arr (x :: xs) => joinSep "," ((x :: xs).map (fun a => html_to_text (pyStr a)))
  | .arr [] => html_to_text (jsonDumps author_field)
  | .obj _ => html_to_text (jsonDumps author_field)
  | v => html_to_text (pyStr v)

/-- The prioritized cover-source chain of `parse_app_book_data`
(`novelCover`, then `originalCover`, then the generic cover keys, then
`localImg`). -/
def coverPick (app_data : JValue) : JValue :=
  let c1 := pickFrom app_data ["novelCover"]
  if truthy c1 then c1 else
  let c2 := pickFrom app_data ["originalCover"]
  if truthy c2 then c2 else
  let c3 := pickFrom app_data ["coverimg", "cover", "cover_img", "bookimg", "coverUrl", "cover_url"]
  if truthy c3 then c3 else
  pickFrom app_data ["localImg"]

/-- `parse_app_book_data(app_data, novelid)`: the field extraction
table of the source, followed by the best-effort enrichment call
(`enrichFetch` models its HTTP fetch, see
`fetch_and_merge_other_info`). -/
def parse_app_book_data (app_data : JValue) (novelid : String)
    (enrichFetch : Except Unit JValue) : Book :=
  let title0 := pickFrom app_data
    ["bookname", "bookName", "book_name", "novelname", "novelName", "name", "title",
     "novelname_format", "novelname_format_html"]
  let title := pyStrip (html_to_text (pyStr title0))
  let author_field := pickFrom app_data
    ["authorname", "author", "authorName", "authors", "writer", "writerName",
     "author_name", "authorNames"]
  let author_str : String := authorStrOf author_field
  let authors := splitDelims author_str.data
  let cover0 := coverPick app_data
  let cover := coverNormalize (pyStr cover0)
  let intro_html := pickFrom app_data ["intro", "novelintroshort", "novelintro", "description", "desc"]
  let tags_raw := pickFrom app_data ["tags"]
  let tags0 : List String :=
    match tags_raw with
    | .str s => splitCommas s.data
    | .arr xs => xs.filterMap (fun t =>
        let st := pyStrip (pyStr t)
        if st ≠ "" then some st else none)
    | _ => []
  let category := pickFrom app_data ["category"]
  let tags := if truthy category then pyStr category :: tags0 else tags0
  let createtime := pyStrip (pyStr (pickFrom app_data ["createtime", "createTime", "publish_time"]))
  let base : Book :=
    { id := novelid
      title := title
      authors := authors
      url := bookDetailUrl novelid
      cover := cover
      description_html := pyStrip (pyStr intro_html)
      description := html_to_text (pyStr intro_html)
      tags := tags
      publishedDate := parsePublished createtime
      status := (let v := pickFrom app_data ["status"]; if truthy v then v else .str "")
      word_count := (let v := pickFrom app_data ["wordcount", "wordCount"]; if truthy v then v else .num 0)
      chapters := pyIntOr0 (pickFrom app_data ["chapterCount", "chaptercount", "chapters"])
      vip_start := pyIntOr0 (pickFrom app_data ["vip_start", "vipStart", "vipstart"]) }
  fetch_and_merge_other_info novelid enrichFetch (some app_data) base

/-! ## `load_book_via_app_api` detail-response processing -/

/-- `str(it.get('novelid') or it.get('bookId') or it.get('id'))` as
compared against `str(novelid)` in the `items` scan (a non-dict item
raises inside the inner `try` and is skipped). -/
def itemMatches (novelid : String) (it : JValue) : Bool :=
  match it with
  | .obj _ =>
    (match jgetT it "novelid" <|> jgetT it "bookId" <|> jgetT it "id" with
     | some v => pyStr v == novelid
     | none => pyStr .null == novelid)
  | _ => false

/-- The envelope unwrapping of `load_book_via_app_api` (lines
1194-1226): `{code:0,data:{book|novel:...}}`, `{data:{...}}`,
`{items:[...]}` (matched by id, else the first item), a bare object,
or a non-empty top-level list. -/
def unwrapAppDetail (data : JValue) (novelid : String) : Option JValue :=
  match data with
  | .obj fs =>
    if (match jlookup "code" fs with
        | some (.num 0) => true
        | some (.bool false) => true
        | _ => false) && truthyO (jlookup "data" fs) then
      let d := (jlookup "data" fs).getD .null
      match d with
      | .obj ds =>
        if truthyO (jlookup "book" ds) || truthyO (jlookup "novel" ds) then
          (match jgetT d "book" with
           | some b => some b
           | none =>
             match jgetT d "novel" with
             | some n => some n
             | none => some d)
        else some d
      | _ => some d
    else if truthyO (jlookup "data" fs) &&
            (match jlookup "data" fs with | some (.obj _) => true | _ => false) then
      jlookup "data" fs
    else if truthyO (jlookup "items" fs) then
      -- `app_data = found or items[0]`: a falsy matched item falls
      -- back to the first item
      (match jlookup "items" fs with
       | some (.arr (h :: t)) =>
         (match (h :: t).find? (itemMatches novelid) with
          | some it => if truthy it then some it else some h
          | none => some h)
       | _ => none)
    else some data
  | .arr (h :: _) => some h
  | _ => none

/-- Processing of one detail-endpoint response body (the loop body of
`load_book_via_app_api`): falsy data, a failed unwrap, a falsy
unwrapped object, or a parse missing title/authors all fall through to
the next endpoint/variant (`none`). -/
def processDetailResponse (data : JValue) (novelid : String)
    (enrichFetch : Except Unit JValue) : Option Book :=
  if truthy data = false then none
  else
    match unwrapAppDetail data novelid with
    | none => none
    | some app_data =>
      if truthy app_data = false then none
      else
        let parsed := parse_app_book_data app_data novelid enrichFetch
        if parsed.title ≠ "" && parsed.authors ≠ [] then some parsed else none

/-! ## `JinjiangBookHtmlParser.parse_book`

The lxml tree queries are external; the model abstracts the page as
the text each XPath query would produce.  `parseOk` is the truthiness
of `etree.HTML(content)`; `titleText`/`authorText` are the
`get_text(...)` results; `authorElems`/`coverPresent` record whether
the respective element lists were non-empty. -/

structure HtmlPage where
  parseOk : Bool := true
  titleText : String := ""
  authorElems : Bool := false
  authorText : String := ""
  coverPresent : Bool := false
  coverSrc : String := ""
  introText : String := ""
  tagTexts : List String := []
  pubdateText : String := ""

/-- The cover-src normalization of the HTML parser (lines 1579-1591);
the `data:` test is nested inside the non-absolute branch but the
accepted set is the same as in `parse_app_book_data`. -/
def coverFromSrcHtml (src0 : String) : String :=
  let src := pyStrip src0
  if src = "" then ""
  else
    let src :=
      if isPfx "//".data src.data then "https:" ++ src
      else if isPfx "/".data src.data then rstripSlash JINJIANG_BASE_URL ++ src
      else if !isPfx "http://".data src.data && !isPfx "https://".data src.data then
        (if !isPfx "data:".data src.data then
          rstripSlash JINJIANG_BASE_URL ++ "/" ++ lstripSlash src
         else src)
      else src
    if src ≠ "" &&
       (isPfx "http://".data src.data || isPfx "https://".data src.data ||
        isPfx "data:".data src.data) then src
    else ""

/-- `re.search(r"novelid=(\d+)", url)` (`\d` is any Unicode decimal
digit). -/
def findNovelid (url : String) : Option String :=
  match findCap "novelid=".data isUniDigit url.data with
  | some cap => some ⟨cap⟩
  | none => none

/-- `JinjiangBookHtmlParser.parse_book(url, content)`: `None` without
a parseable tree, without an id in the URL, or without a non-empty
title; authors may be empty. -/
def parse_book (url : String) (page : HtmlPage) : Option Book :=
  if !page.parseOk then none
  else
    match findNovelid url with
    | none => none
    | some nid =>
      let title := pyStrip page.titleText
      if title = "" then none
      else some
        { id := nid
          title := title
          authors := if page.authorElems then [pyStrip page.authorText] else []
          cover := if page.coverPresent then coverFromSrcHtml page.coverSrc else ""
          description := page.introText
          tags := page.tagTexts.filterMap (fun t =>
            let st := pyStrip t
            if st ≠ "" then some st else none)
          publishedDate := page.pubdateText
          url := url }

/-! ## Field preservation through the enrichment step

`fetch_and_merge_other_info` only ever touches `tags`, `comments`,
`description` and `description_html`; the identifying fields survive
unchanged. -/

/-! ## Theorems -/

theorem noPair_nil {o c : Char} : NoPair o c [] := by
  intro l1 l2 h
  exact absurd h (by simp)

theorem noPair_cons {o c x : Char} {t : List Char} :
    NoPair o c (x :: t) ↔ (x = o → c ∉ t) ∧ NoPair o c t := by
  constructor
  · intro h
    refine ⟨fun hx => h [] t (by rw [hx]; rfl), fun l1 l2 he => h (x :: l1) l2 (by rw [he]; rfl)⟩
  · rintro ⟨h1, h2⟩ l1 l2 he
    cases l1 with
    | nil =>
      simp at he
      obtain ⟨hx, ht⟩ := he
      subst ht
      exact h1 hx
    | cons a l1' =>
      simp at he
      exact h2 l1' l2 he.2

theorem noPair_of_not_mem {o c : Char} {l : List Char} (h : c ∉ l) : NoPair o c l := by
  intro l1 l2 he hc
  exact h (by rw [he]; exact List.mem_append_right _ (List.mem_cons_of_mem _ hc))

theorem noPair_append_left {o c : Char} {l1 l2 : List Char}
    (h : NoPair o c (l1 ++ l2)) : NoPair o c l1 := by
  induction l1 with
  | nil => exact noPair_nil
  | cons a t ih =>
    rw [noPair_cons]
    rw [List.cons_append, noPair_cons] at h
    exact ⟨fun ha => fun hc => h.1 ha (List.mem_append_left _ hc), ih h.2⟩

theorem noPair_append_right {o c : Char} {l1 l2 : List Char}
    (h : NoPair o c (l1 ++ l2)) : NoPair o c l2 := by
  induction l1 with
  | nil => exact h
  | cons a t ih =>
    rw [List.cons_append, noPair_cons] at h
    exact ih h.2

theorem noPair_tail {o c x : Char} {t : List Char} (h : NoPair o c (x :: t)) :
    NoPair o c t :=
  noPair_append_right (show NoPair o c ([x] ++ t) from h)

/-- `dropWhile` returns a suffix. -/
theorem dropWhile_suffix_decomp (p : Char → Bool) (l : List Char) :
    ∃ t, l = t ++ l.dropWhile p := by
  induction l with
  | nil => exact ⟨[], rfl⟩
  | cons a as ih =>
    by_cases h : p a
    · obtain ⟨t, ht⟩ := ih
      refine ⟨a :: t, ?_⟩
      simp [List.dropWhile, h]
      exact ht
    · exact ⟨[], by simp [List.dropWhile, h]⟩

theorem mem_of_mem_dropWhile {p : Char → Bool} {l : List Char} {a : Char}
    (h : a ∈ l.dropWhile p) : a ∈ l := by
  obtain ⟨t, ht⟩ := dropWhile_suffix_decomp p l
  rw [ht]
  exact List.mem_append_right _ h

theorem head_dropWhile_false {p : Char → Bool} {l : List Char} {a : Char} {t : List Char}
    (h : l.dropWhile p = a :: t) : p a = false := by
  induction l with
  | nil => simp [List.dropWhile] at h
  | cons x xs ih =>
    simp only [List.dropWhile] at h
    split at h
    · exact ih h
    · cases h; rename_i hq; simpa using hq

theorem noPair_dropWhile {o c : Char} {p : Char → Bool} {l : List Char}
    (h : NoPair o c l) : NoPair o c (l.dropWhile p) := by
  obtain ⟨t, ht⟩ := dropWhile_suffix_decomp p l
  exact noPair_append_right (ht ▸ h)

/-! ### `splitFirst` facts -/

theorem splitFirst_none_iff {c : Char} {l : List Char} :
    splitFirst c l = none ↔ c ∉ l := by
  induction l with
  | nil => simp [splitFirst]
  | cons y ys ih =>
    by_cases h : y = c
    · simp [splitFirst, h]
    · simp only [splitFirst, if_neg h, ih, List.mem_cons]
      constructor
      · intro hn hm
        rcases hm with hm | hm
        · exact h hm.symm
        · exact hn hm
      · intro hn hm
        exact hn (Or.inr hm)

theorem splitFirst_decomp {c : Char} {l r : List Char} (h : splitFirst c l = some r) :
    ∃ t, l = t ++ c :: r ∧ c ∉ t := by
  induction l generalizing r with
  | nil => simp [splitFirst] at h
  | cons y ys ih =>
    simp only [splitFirst] at h
    split at h
    · rename_i hy
      cases h
      exact ⟨[], by simp [hy]⟩
    · rename_i hy
      obtain ⟨t, ht, hc⟩ := ih h
      exact ⟨y :: t, by simp [ht], by simp [hc]; intro he; exact hy he.symm⟩

theorem mem_of_mem_splitFirst {c a : Char} {l r : List Char}
    (h : splitFirst c l = some r) (ha : a ∈ r) : a ∈ l := by
  obtain ⟨t, ht, -⟩ := splitFirst_decomp h
  rw [ht]
  exact List.mem_append_right _ (List.mem_cons_of_mem _ ha)

/-! ### Membership/identity lemmas for the pipeline stages -/

theorem rmDelim_cons_some {o c : Char} {xs rest : List Char}
    (hsp : splitFirst c xs = some rest) :
    rmDelim o c (o :: xs) = rmDelim o c rest := by
  rw [rmDelim]
  split
  · split
    · rename_i r h'
      rw [hsp] at h'
      cases h'
      rfl
    · rename_i h'
      rw [hsp] at h'
      exact absurd h' (by simp)
  · rename_i hf
    exact absurd rfl hf

theorem rmDelim_cons_none {o c : Char} {xs : List Char}
    (hsp : splitFirst c xs = none) :
    rmDelim o c (o :: xs) = o :: rmDelim o c xs := by
  rw [rmDelim]
  split
  · split
    · rename_i r h'
      rw [hsp] at h'
      exact absurd h' (by simp)
    · rfl
  · rename_i hf
    exact absurd rfl hf

theorem rmDelim_cons_ne {o c y : Char} {ys : List Char} (hy : ¬y = o) :
    rmDelim o c (y :: ys) = y :: rmDelim o c ys := by
  rw [rmDelim, if_neg hy]

theorem mem_rmDelim {o c a : Char} : ∀ {l : List Char}, a ∈ rmDelim o c l → a ∈ l := by
  intro l
  induction l using rmDelim.induct o c with
  | case1 => simp [rmDelim]
  | case2 xs rest hsp ih =>
    intro h
    rw [rmDelim_cons_some hsp] at h
    exact List.mem_cons_of_mem _ (mem_of_mem_splitFirst hsp (ih h))
  | case3 xs hsp ih =>
    intro h
    rw [rmDelim_cons_none hsp] at h
    simp at h ⊢
    rcases h with h | h
    · exact Or.inl h
    · exact Or.inr (ih h)
  | case4 y ys hy ih =>
    intro h
    rw [rmDelim_cons_ne hy] at h
    simp at h ⊢
    rcases h with h | h
    · exact Or.inl h
    · exact Or.inr (ih h)

theorem rmDelim_id_of_not_mem {o c : Char} : ∀ {l : List Char}, o ∉ l → rmDelim o c l = l := by
  intro l
  induction l using rmDelim.induct o c with
  | case1 => simp [rmDelim]
  | case2 xs rest hsp ih => intro h; simp at h
  | case3 xs hsp ih => intro h; simp at h
  | case4 y ys hy ih =>
    intro h
    rw [rmDelim_cons_ne hy, ih (fun hm => h (List.mem_cons_of_mem _ hm))]

theorem rmDelim_id_of_noPair {o c : Char} :
    ∀ {l : List Char}, NoPair o c l → rmDelim o c l = l := by
  intro l
  induction l using rmDelim.induct o c with
  | case1 => simp [rmDelim]
  | case2 xs rest hsp ih =>
    intro h
    obtain ⟨t, ht, -⟩ := splitFirst_decomp hsp
    exact absurd (h [] (t ++ c :: rest) (by rw [ht]; rfl)) (by simp)
  | case3 xs hsp ih =>
    intro h
    rw [rmDelim_cons_none hsp, ih (noPair_tail h)]
  | case4 y ys hy ih =>
    intro h
    rw [rmDelim_cons_ne hy, ih (noPair_tail h)]

/-- After `rmDelim o c`, no remaining `o` has a later `c`. -/
theorem noPair_rmDelim (o c : Char) : ∀ (l : List Char), NoPair o c (rmDelim o c l) := by
  intro l
  induction l using rmDelim.induct o c with
  | case1 => rw [rmDelim]; exact noPair_nil
  | case2 xs rest hsp ih =>
    rw [rmDelim_cons_some hsp]
    exact ih
  | case3 xs hsp ih =>
    rw [rmDelim_cons_none hsp, noPair_cons]
    have hnc : c ∉ xs := splitFirst_none_iff.mp hsp
    exact ⟨fun _ => fun hc => hnc (mem_rmDelim hc), ih⟩
  | case4 y ys hy ih =>
    rw [rmDelim_cons_ne hy, noPair_cons]
    exact ⟨fun he => absurd he hy, ih⟩

theorem mem_replAll {a b x : Char} {l : List Char} (h : x ∈ replAll a b l) :
    x ∈ l ∨ x = b := by
  simp only [replAll, List.mem_map] at h
  obtain ⟨y, hy, he⟩ := h
  by_cases hya : y = a
  · right; rw [← he, hya]; simp
  · left; rw [← he]; simp [hya]; exact hy

theorem replAll_id_of_not_mem {a b : Char} {l : List Char} (h : a ∉ l) :
    replAll a b l = l := by
  simp only [replAll]
  induction l with
  | nil => rfl
  | cons x xs ih =>
    simp at h
    simp [ih h.2]
    intro hx
    exact absurd hx.symm h.1

theorem not_mem_replAll {a b : Char} {l : List Char} (hab : b ≠ a) : a ∉ replAll a b l := by
  intro h
  simp only [replAll, List.mem_map] at h
  obtain ⟨y, hy, he⟩ := h
  by_cases hya : y = a
  · rw [if_pos hya] at he
    exact hab he
  · rw [if_neg hya] at he
    exact hya he

theorem noPair_replAll {o c a b : Char} {l : List Char}
    (hao : a ≠ o) (hac : a ≠ c) (hbo : b ≠ o) (hbc : b ≠ c)
    (h : NoPair o c l) : NoPair o c (replAll a b l) := by
  induction l with
  | nil => exact noPair_nil
  | cons x xs ih =>
    rw [noPair_cons] at h
    have hx : replAll a b (x :: xs) = (if x = a then b else x) :: replAll a b xs := rfl
    rw [hx, noPair_cons]
    constructor
    · intro he hc
      have hxo : x = o := by
        by_cases hxa : x = a
        · rw [if_pos hxa] at he; exact absurd he hbo
        · rwa [if_neg hxa] at he
      rcases mem_replAll hc with hm | hm
      · exact h.1 hxo hm
      · exact hbc hm.symm
    · exact ih h.2

theorem mem_collapseRuns {p : Char → Bool} {x : Char} :
    ∀ {l : List Char}, x ∈ collapseRuns p l → x ∈ l ∨ x = ' ' := by
  intro l
  induction l using collapseRuns.induct p with
  | case1 => simp [collapseRuns]
  | case2 y ys hy ih =>
    intro h
    rw [collapseRuns, if_pos hy] at h
    simp at h
    rcases h with h | h
    · exact Or.inr h
    · rcases ih h with h' | h'
      · exact Or.inl (List.mem_cons_of_mem _ (mem_of_mem_dropWhile h'))
      · exact Or.inr h'
  | case3 y ys hy ih =>
    intro h
    rw [collapseRuns, if_neg hy] at h
    simp at h
    rcases h with h | h
    · exact Or.inl (by simp [h])
    · rcases ih h with h' | h'
      · exact Or.inl (List.mem_cons_of_mem _ h')
      · exact Or.inr h'

theorem collapseRuns_id_of_all_false {p : Char → Bool} {l : List Char}
    (h : ∀ c ∈ l, p c = false) : collapseRuns p l = l := by
  induction l with
  | nil => rw [collapseRuns]
  | cons x xs ih =>
    rw [collapseRuns, if_neg (by simp [h x (by simp)])]
    rw [ih (fun c hc => h c (List.mem_cons_of_mem _ hc))]

theorem noPair_collapseRuns {o c : Char} {p : Char → Bool}
    (ho : o ≠ ' ') (hc : c ≠ ' ') :
    ∀ {l : List Char}, NoPair o c l → NoPair o c (collapseRuns p l) := by
  intro l
  induction l using collapseRuns.induct p with
  | case1 => intro h; rw [collapseRuns]; exact noPair_nil
  | case2 y ys hy ih =>
    intro h
    rw [collapseRuns, if_pos hy, noPair_cons]
    constructor
    · intro he; exact absurd he.symm ho
    · exact ih (noPair_dropWhile (noPair_tail h))
  | case3 y ys hy ih =>
    intro h
    rw [collapseRuns, if_neg hy, noPair_cons]
    rw [noPair_cons] at h
    constructor
    · intro he hm
      rcases mem_collapseRuns hm with hm' | hm'
      · exact h.1 he hm'
      · exact hc hm'
    · exact ih h.2

theorem mem_dropTrail {p : Char → Bool} {l : List Char} {a : Char}
    (h : a ∈ dropTrail p l) : a ∈ l := by
  simp only [dropTrail, List.mem_reverse] at h
  have := mem_of_mem_dropWhile h
  simpa using this

theorem mem_pyStripL {l : List Char} {a : Char} (h : a ∈ pyStripL l) : a ∈ l :=
  mem_of_mem_dropWhile (mem_dropTrail h)

/-- `dropTrail` returns a prefix. -/
theorem dropTrail_decomp (p : Char → Bool) (l : List Char) :
    ∃ t, l = dropTrail p l ++ t := by
  obtain ⟨t, ht⟩ := dropWhile_suffix_decomp p l.reverse
  refine ⟨t.reverse, ?_⟩
  have : l.reverse.reverse = (t ++ l.reverse.dropWhile p).reverse := by rw [← ht]
  simpa [dropTrail] using this

theorem noPair_dropTrail {o c : Char} {p : Char → Bool} {l : List Char}
    (h : NoPair o c l) : NoPair o c (dropTrail p l) := by
  obtain ⟨t, ht⟩ := dropTrail_decomp p l
  exact noPair_append_left (ht ▸ h)

theorem noPair_pyStripL {o c : Char} {l : List Char} (h : NoPair o c l) :
    NoPair o c (pyStripL l) :=
  noPair_dropTrail (noPair_dropWhile h)

/-! ### Idempotence of the whitespace-collapsing stage -/

theorem dropWhile_cons_neg {p : Char → Bool} {c : Char} {t : List Char} (h : p c = false) :
    (c :: t).dropWhile p = c :: t := by
  simp [List.dropWhile, h]

theorem dropWhile_dropWhile (p : Char → Bool) (l : List Char) :
    (l.dropWhile p).dropWhile p = l.dropWhile p := by
  cases h : l.dropWhile p with
  | nil => rfl
  | cons c t => exact dropWhile_cons_neg (head_dropWhile_false h)

theorem dropTrail_dropTrail (p : Char → Bool) (l : List Char) :
    dropTrail p (dropTrail p l) = dropTrail p l := by
  simp only [dropTrail, List.reverse_reverse]
  rw [dropWhile_dropWhile]

theorem noAdjP_nil {p : Char → Bool} : NoAdjP p [] := by
  intro l1 a b l2 h
  exact absurd h (by simp)

theorem noAdjP_cons {p : Char → Bool} {x : Char} {w : List Char} :
    NoAdjP p (x :: w) ↔ (∀ b w', w = b :: w' → ¬(p x = true ∧ p b = true)) ∧ NoAdjP p w := by
  constructor
  · intro h
    refine ⟨fun b w' hw => h [] x b w' (by rw [hw]; rfl),
            fun l1 a b l2 hw => h (x :: l1) a b l2 (by rw [hw]; rfl)⟩
  · rintro ⟨h1, h2⟩ l1 a b l2 hw
    cases l1 with
    | nil =>
      simp at hw
      obtain ⟨hx, hww⟩ := hw
      exact hx ▸ h1 b l2 hww
    | cons u l1' =>
      simp at hw
      exact h2 l1' a b l2 hw.2

theorem noAdjP_tail {p : Char → Bool} {x : Char} {w : List Char}
    (h : NoAdjP p (x :: w)) : NoAdjP p w :=
  (noAdjP_cons.mp h).2

theorem noAdjP_append_left {p : Char → Bool} {l1 l2 : List Char}
    (h : NoAdjP p (l1 ++ l2)) : NoAdjP p l1 := by
  intro w1 a b w2 hw
  exact h w1 a b (w2 ++ l2) (by rw [hw]; simp)

theorem noAdjP_append_right {p : Char → Bool} {l1 l2 : List Char}
    (h : NoAdjP p (l1 ++ l2)) : NoAdjP p l2 := by
  intro w1 a b w2 hw
  exact h (l1 ++ w1) a b w2 (by rw [hw]; simp)

theorem noAdjP_dropWhile {p q : Char → Bool} {l : List Char}
    (h : NoAdjP p l) : NoAdjP p (l.dropWhile q) := by
  obtain ⟨t, ht⟩ := dropWhile_suffix_decomp q l
  exact noAdjP_append_right (ht ▸ h)

theorem noAdjP_dropTrail {p q : Char → Bool} {l : List Char}
    (h : NoAdjP p l) : NoAdjP p (dropTrail q l) := by
  obtain ⟨t, ht⟩ := dropTrail_decomp q l
  exact noAdjP_append_left (ht ▸ h)

/-- Every `p`-character of a collapsed string is the inserted space. -/
theorem collapse_space_only {p : Char → Bool} {x : Char} :
    ∀ {l : List Char}, x ∈ collapseRuns p l → p x = true → x = ' ' := by
  intro l
  induction l using collapseRuns.induct p with
  | case1 => intro h; rw [collapseRuns] at h; simp at h
  | case2 y ys hy ih =>
    intro h hp
    rw [collapseRuns, if_pos hy] at h
    rcases List.mem_cons.mp h with h' | h'
    · exact h'
    · exact ih h' hp
  | case3 y ys hy ih =>
    intro h hp
    rw [collapseRuns, if_neg hy] at h
    rcases List.mem_cons.mp h with h' | h'
    · rw [h'] at hp; rw [hp] at hy; exact absurd rfl hy
    · exact ih h' hp

/-- The head of a collapsed string is non-`p` whenever the input's head is. -/
theorem collapse_head_cases {p : Char → Bool} {m : List Char} :
    collapseRuns p m = [] ∨
    ∃ c t, collapseRuns p m = c :: t ∧ (p c = false ∨ c = ' ') := by
  cases m with
  | nil => left; rw [collapseRuns]
  | cons y ys =>
    right
    by_cases hy : p y
    · exact ⟨' ', _, by rw [collapseRuns, if_pos hy], Or.inr rfl⟩
    · exact ⟨y, _, by rw [collapseRuns, if_neg hy], Or.inl (by simpa using hy)⟩

/-- The head of `collapseRuns p (dropWhile p m)` never satisfies `p`. -/
theorem collapse_dropWhile_head {p : Char → Bool} {m : List Char} :
    collapseRuns p (m.dropWhile p) = [] ∨
    ∃ c t, collapseRuns p (m.dropWhile p) = c :: t ∧ p c = false := by
  cases h : m.dropWhile p with
  | nil => left; rw [collapseRuns]
  | cons c t =>
    right
    have hc : p c = false := head_dropWhile_false h
    exact ⟨c, _, by rw [collapseRuns, if_neg (by simp [hc])], hc⟩

/-- No adjacent `p`-pair survives collapsing. -/
theorem noAdjP_collapse {p : Char → Bool} : ∀ {l : List Char}, NoAdjP p (collapseRuns p l) := by
  intro l
  induction l using collapseRuns.induct p with
  | case1 => rw [collapseRuns]; exact noAdjP_nil
  | case2 y ys hy ih =>
    rw [collapseRuns, if_pos hy, noAdjP_cons]
    refine ⟨?_, ih⟩
    intro b w' hw hpb
    rcases collapse_dropWhile_head (p := p) (m := ys) with h0 | ⟨c, t, hct, hc⟩
    · rw [h0] at hw; cases hw
    · rw [hct] at hw
      cases hw
      rw [hpb.2] at hc
      cases hc
  | case3 y ys hy ih =>
    rw [collapseRuns, if_neg hy, noAdjP_cons]
    refine ⟨?_, ih⟩
    intro b w' hw hpb
    exact absurd hpb.1 (by simpa using hy)

/-- `collapseRuns` is the identity on strings whose `p`-characters are
single spaces with non-`p` neighbours. -/
theorem collapse_id_of_spaced {p : Char → Bool} :
    ∀ {l : List Char}, (∀ c ∈ l, p c = true → c = ' ') → NoAdjP p l →
      collapseRuns p l = l := by
  intro l
  induction l using collapseRuns.induct p with
  | case1 => intro _ _; rw [collapseRuns]
  | case2 y ys hy ih =>
    intro hsp hadj
    have hy' : y = ' ' := hsp y (by simp) hy
    rw [collapseRuns, if_pos hy]
    cases ys with
    | nil =>
      rw [hy']
      simp [List.dropWhile, collapseRuns]
    | cons b t =>
      have hb : p b = false := by
        by_contra hb'
        exact (hadj [] y b t rfl) ⟨hy, by simpa using hb'⟩
      rw [dropWhile_cons_neg hb] at ih ⊢
      rw [ih (fun c hc hp => hsp c (List.mem_cons_of_mem _ hc) hp) (noAdjP_tail hadj),
        hy']
  | case3 y ys hy ih =>
    intro hsp hadj
    rw [collapseRuns, if_neg hy]
    rw [ih (fun c hc hp => hsp c (List.mem_cons_of_mem _ hc) hp) (noAdjP_tail hadj)]

/-- The rightmost character of `dropTrail p l` never satisfies `p`;
phrased through the reverse. -/
theorem collapseStrip_collapse (l : List Char) :
    collapseRuns isPySpace (collapseStrip l) = collapseStrip l := by
  apply collapse_id_of_spaced
  · intro c hc hp
    exact collapse_space_only (mem_pyStripL hc) hp
  · exact noAdjP_dropTrail (noAdjP_dropWhile noAdjP_collapse)

theorem dropWhile_of_stripped (l : List Char) :
    (collapseStrip l).dropWhile isPySpace = collapseStrip l := by
  cases h : collapseStrip l with
  | nil => rfl
  | cons c t =>
    obtain ⟨tt, htt⟩ :=
      dropTrail_decomp isPySpace ((collapseRuns isPySpace l).dropWhile isPySpace)
    rw [show dropTrail isPySpace ((collapseRuns isPySpace l).dropWhile isPySpace)
          = collapseStrip l from rfl, h] at htt
    have htt' : (collapseRuns isPySpace l).dropWhile isPySpace = c :: (t ++ tt) := by
      rw [htt]; simp
    have hc : isPySpace c = false := head_dropWhile_false htt'
    exact dropWhile_cons_neg hc

theorem pyStripL_of_stripped (l : List Char) :
    pyStripL (collapseStrip l) = collapseStrip l := by
  show dropTrail isPySpace ((collapseStrip l).dropWhile isPySpace) = collapseStrip l
  rw [dropWhile_of_stripped]
  show dropTrail isPySpace
      (dropTrail isPySpace ((collapseRuns isPySpace l).dropWhile isPySpace))
    = collapseStrip l
  rw [dropTrail_dropTrail]
  rfl

/-- The whole step-5 transformation is idempotent. -/
theorem collapseStrip_idem (l : List Char) :
    collapseStrip (collapseStrip l) = collapseStrip l := by
  unfold collapseStrip
  rw [show collapseRuns isPySpace (pyStripL (collapseRuns isPySpace l))
        = collapseRuns isPySpace (collapseStrip l) from rfl]
  rw [collapseStrip_collapse]
  exact pyStripL_of_stripped l

/-! ### The image of the pipeline -/

theorem toNat_ofNat_small {n : Nat} (h : n < 0xD800) : (Char.ofNat n).toNat = n := by
  unfold Char.ofNat
  split
  · rfl
  · rename_i hv
    exact absurd (Or.inl h) hv

theorem f2h_not_inFW (c : Char) : ¬ inFW (f2h c) := by
  unfold f2h
  by_cases h3 : c.toNat = 0x3000
  · rw [if_pos h3]
    intro hf
    rcases hf with hf | hf
    · simp at hf
    · exact absurd hf.1 (by simp)
  · rw [if_neg h3]
    by_cases h4 : (0xFF01 ≤ c.toNat && c.toNat ≤ 0xFF5E) = true
    · rw [if_pos h4]
      simp only [Bool.and_eq_true, decide_eq_true_eq] at h4
      have ht : (Char.ofNat (c.toNat - 0xFEE0)).toNat = c.toNat - 0xFEE0 :=
        toNat_ofNat_small (by omega)
      intro hf
      rcases hf with hf | hf
      · rw [ht] at hf; omega
      · rw [ht] at hf; omega
    · rw [if_neg h4]
      simp only [Bool.and_eq_true, decide_eq_true_eq, not_and, not_le] at h4
      intro hf
      rcases hf with hf | hf
      · exact h3 hf
      · have := h4 (by omega)
        omega

theorem f2h_id_of_not_inFW {c : Char} (h : ¬ inFW c) : f2h c = c := by
  unfold f2h
  rw [if_neg (fun h3 => h (Or.inl h3)),
      if_neg (fun h4 => h (Or.inr (by
        simp only [Bool.and_eq_true, decide_eq_true_eq] at h4
        exact h4)))]

theorem full2half_id {l : List Char} (h : ∀ c ∈ l, ¬ inFW c) : full2half l = l := by
  unfold full2half
  induction l with
  | nil => rfl
  | cons x xs ih =>
    simp only [List.map_cons]
    rw [f2h_id_of_not_inFW (h x (by simp)), ih (fun c hc => h c (List.mem_cons_of_mem _ hc))]

theorem not_inFW_full2half (l : List Char) : ∀ c ∈ full2half l, ¬ inFW c := by
  intro c hc
  obtain ⟨d, _, hd⟩ := List.mem_map.mp hc
  exact hd ▸ f2h_not_inFW d

/-- Kept characters of `collapseRuns`: every member either fails `p` or
is the inserted space. -/
theorem collapse_mem_prop {p : Char → Bool} {x : Char} :
    ∀ {l : List Char}, x ∈ collapseRuns p l → p x = false ∨ x = ' ' := by
  intro l
  induction l using collapseRuns.induct p with
  | case1 => intro h; rw [collapseRuns] at h; simp at h
  | case2 y ys hy ih =>
    intro h
    rw [collapseRuns, if_pos hy] at h
    rcases List.mem_cons.mp h with h' | h'
    · exact Or.inr h'
    · exact ih h'
  | case3 y ys hy ih =>
    intro h
    rw [collapseRuns, if_neg hy] at h
    rcases List.mem_cons.mp h with h' | h'
    · exact Or.inl (by rw [h']; simpa using hy)
    · exact ih h'

theorem not_mem_of_all_keep {l : List Char} {a : Char}
    (h : ∀ c ∈ l, keepChar c = true) (ha : keepChar a = false) : a ∉ l := by
  intro hm
  rw [h a hm] at ha
  cases ha

theorem not_mem_of_all_not_inFW {l : List Char} {a : Char}
    (h : ∀ c ∈ l, ¬ inFW c) (ha : inFW a) : a ∉ l :=
  fun hm => h a hm ha

theorem normalizeL_good (l0 : List Char) : GoodOut (normalizeL l0) := by
  unfold normalizeL
  set l1 := full2half l0 with hl1
  set l2 := rmDelim '(' ')' l1 with hl2
  set l3 := rmDelim '[' ']' l2 with hl3
  set l4 := rmDelim '（' '）' l3 with hl4
  set l5 := rmDelim '【' '】' l4 with hl5
  set l6 := replAll '·' ' ' l5 with hl6
  set l7 := replAll '•' ' ' l6 with hl7
  set l8 := replAll '・' ' ' l7 with hl8
  set l9 := replAll '…' ' ' l8 with hl9
  set l10 := replAll '：' ':' l9 with hl10
  set l11 := replAll '。' '.' l10 with hl11
  set l12 := replAll '，' ',' l11 with hl12
  set l13 := filterKeep l12 with hl13
  -- no full-width character survives any stage
  have fw1 : ∀ c ∈ l1, ¬ inFW c := not_inFW_full2half l0
  have fw2 : ∀ c ∈ l2, ¬ inFW c := fun c hc => fw1 c (mem_rmDelim hc)
  have fw3 : ∀ c ∈ l3, ¬ inFW c := fun c hc => fw2 c (mem_rmDelim hc)
  have fw4 : ∀ c ∈ l4, ¬ inFW c := fun c hc => fw3 c (mem_rmDelim hc)
  have fw5 : ∀ c ∈ l5, ¬ inFW c := fun c hc => fw4 c (mem_rmDelim hc)
  have repl_fw : ∀ {a b : Char} {m : List Char}, (∀ c ∈ m, ¬ inFW c) → ¬ inFW b →
      ∀ c ∈ replAll a b m, ¬ inFW c := by
    intro a b m hm hb c hc
    rcases mem_replAll hc with h | h
    · exact hm c h
    · exact h ▸ hb
  have hnfw_sp : ¬ inFW ' ' := by unfold inFW; decide
  have hnfw_colon : ¬ inFW ':' := by unfold inFW; decide
  have hnfw_dot : ¬ inFW '.' := by unfold inFW; decide
  have hnfw_comma : ¬ inFW ',' := by unfold inFW; decide
  have fw6 : ∀ c ∈ l6, ¬ inFW c := repl_fw fw5 hnfw_sp
  have fw7 : ∀ c ∈ l7, ¬ inFW c := repl_fw fw6 hnfw_sp
  have fw8 : ∀ c ∈ l8, ¬ inFW c := repl_fw fw7 hnfw_sp
  have fw9 : ∀ c ∈ l9, ¬ inFW c := repl_fw fw8 hnfw_sp
  have fw10 : ∀ c ∈ l10, ¬ inFW c := repl_fw fw9 hnfw_colon
  have fw11 : ∀ c ∈ l11, ¬ inFW c := repl_fw fw10 hnfw_dot
  have fw12 : ∀ c ∈ l12, ¬ inFW c := repl_fw fw11 hnfw_comma
  have fw13 : ∀ c ∈ l13, ¬ inFW c := by
    intro c hc
    have hc' : c ∈ collapseRuns (fun c => !keepChar c) l12 := hc
    rcases mem_collapseRuns hc' with h | h
    · exact fw12 c h
    · exact h ▸ hnfw_sp
  -- full-width freedom of the final output
  have fwOut : ∀ c ∈ collapseStrip l13, ¬ inFW c := by
    intro c hc
    have hc' := mem_pyStripL hc
    rcases mem_collapseRuns hc' with h | h
    · exact fw13 c h
    · exact h ▸ hnfw_sp
  -- keep-class of the final output
  have keep13 : ∀ c ∈ l13, keepChar c = true := by
    intro c hc
    have hc' : c ∈ collapseRuns (fun c => !keepChar c) l12 := hc
    rcases collapse_mem_prop hc' with h | h
    · simpa using h
    · rw [h]; decide
  have keepOut : ∀ c ∈ collapseStrip l13, keepChar c = true := by
    intro c hc
    have hc' := mem_pyStripL hc
    rcases mem_collapseRuns hc' with h | h
    · exact keep13 c h
    · rw [h]; decide
  -- absence of `。` from its replacement stage onwards
  have per11 : '。' ∉ l11 := not_mem_replAll (by decide)
  have per12 : '。' ∉ l12 := by
    intro hm
    rcases mem_replAll hm with h | h
    · exact per11 h
    · simp at h
  have per13 : '。' ∉ l13 := by
    intro hm
    have hm' : '。' ∈ collapseRuns (fun c => !keepChar c) l12 := hm
    rcases mem_collapseRuns hm' with h | h
    · exact per12 h
    · simp at h
  have perOut : '。' ∉ collapseStrip l13 := by
    intro hm
    have hm' := mem_pyStripL hm
    rcases mem_collapseRuns hm' with h | h
    · exact per13 h
    · simp at h
  -- the bracket-pair property from the `【】` removal stage onwards
  have np5 : NoPair '【' '】' l5 := noPair_rmDelim _ _ _
  have np6 : NoPair '【' '】' l6 := noPair_replAll (by decide) (by decide) (by decide) (by decide) np5
  have np7 : NoPair '【' '】' l7 := noPair_replAll (by decide) (by decide) (by decide) (by decide) np6
  have np8 : NoPair '【' '】' l8 := noPair_replAll (by decide) (by decide) (by decide) (by decide) np7
  have np9 : NoPair '【' '】' l9 := noPair_replAll (by decide) (by decide) (by decide) (by decide) np8
  have np10 : NoPair '【' '】' l10 := noPair_replAll (by decide) (by decide) (by decide) (by decide) np9
  have np11 : NoPair '【' '】' l11 := noPair_replAll (by decide) (by decide) (by decide) (by decide) np10
  have np12 : NoPair '【' '】' l12 := noPair_replAll (by decide) (by decide) (by decide) (by decide) np11
  have np13 : NoPair '【' '】' l13 := noPair_collapseRuns (by decide) (by decide) np12
  have npOut : NoPair '【' '】' (collapseStrip l13) :=
    noPair_pyStripL (noPair_collapseRuns (by decide) (by decide) np13)
  exact ⟨keepOut, fwOut, perOut, npOut⟩

/-- A second pass of every stage is the identity on `GoodOut` strings
that are already whitespace-collapsed. -/
theorem normalizeL_id_of_good {z : List Char} (hg : GoodOut z)
    (hstep5 : collapseStrip z = z) : normalizeL z = z := by
  obtain ⟨hkeep, hfw, hper, hnp⟩ := hg
  show collapseStrip (filterKeep (replAll '，' ',' (replAll '。' '.' (replAll '：' ':'
      (replAll '…' ' ' (replAll '・' ' ' (replAll '•' ' ' (replAll '·' ' '
      (rmDelim '【' '】' (rmDelim '（' '）' (rmDelim '[' ']' (rmDelim '(' ')'
      (full2half z))))))))))))) = z
  rw [full2half_id hfw]
  rw [rmDelim_id_of_not_mem (not_mem_of_all_keep hkeep (by decide))]
  rw [rmDelim_id_of_not_mem (not_mem_of_all_keep hkeep (by decide))]
  rw [rmDelim_id_of_not_mem (not_mem_of_all_not_inFW hfw (by
    right
    constructor <;> decide))]
  rw [rmDelim_id_of_noPair hnp]
  rw [replAll_id_of_not_mem (not_mem_of_all_keep hkeep (by decide))]
  rw [replAll_id_of_not_mem (not_mem_of_all_keep hkeep (by decide))]
  rw [replAll_id_of_not_mem (not_mem_of_all_keep hkeep (by decide))]
  rw [replAll_id_of_not_mem (not_mem_of_all_keep hkeep (by decide))]
  rw [replAll_id_of_not_mem (not_mem_of_all_not_inFW hfw (by
    right
    constructor <;> decide))]
  rw [replAll_id_of_not_mem hper]
  rw [replAll_id_of_not_mem (not_mem_of_all_not_inFW hfw (by
    right
    constructor <;> decide))]
  rw [show filterKeep z = z from
    collapseRuns_id_of_all_false (fun c hc => by simp [hkeep c hc])]
  exact hstep5

/-- The output of `normalizeL` is step-5-collapsed. -/
theorem normalizeL_collapsed (l : List Char) :
    collapseStrip (normalizeL l) = normalizeL l := by
  show collapseStrip (collapseStrip _) = _
  rw [collapseStrip_idem]
  rfl

theorem normalizeL_idem (l : List Char) : normalizeL (normalizeL l) = normalizeL l :=
  normalizeL_id_of_good (normalizeL_good l) (normalizeL_collapsed l)

/-! ### Full-width inputs normalize to half-width output -/

theorem f2h_halfwidth {c : Char} (h : inFWB c = true) : halfwidthB (f2h c) = true := by
  unfold inFWB at h
  unfold f2h halfwidthB
  simp only [Bool.or_eq_true, Bool.and_eq_true, beq_iff_eq, decide_eq_true_eq] at h
  rcases h with h | h
  · rw [if_pos h]
    decide
  · rw [if_neg (by omega), if_pos (by simp only [Bool.and_eq_true, decide_eq_true_eq]; omega)]
    have ht : (Char.ofNat (c.toNat - 0xFEE0)).toNat = c.toNat - 0xFEE0 :=
      toNat_ofNat_small (by omega)
    simp only [Bool.and_eq_true, decide_eq_true_eq, ht]
    omega

theorem halfwidth_space : halfwidthB ' ' = true := by decide

theorem halfwidth_colon : halfwidthB ':' = true := by decide

theorem halfwidth_dot : halfwidthB '.' = true := by decide

theorem halfwidth_comma : halfwidthB ',' = true := by decide

theorem normalizeL_halfwidth {l : List Char} (h : ∀ c ∈ l, inFWB c = true) :
    ∀ c ∈ normalizeL l, halfwidthB c = true := by
  have heq : normalizeL l = collapseStrip (filterKeep (replAll '，' ',' (replAll '。' '.'
      (replAll '：' ':' (replAll '…' ' ' (replAll '・' ' ' (replAll '•' ' ' (replAll '·' ' '
      (rmDelim '【' '】' (rmDelim '（' '）' (rmDelim '[' ']' (rmDelim '(' ')'
      (full2half l))))))))))))) := rfl
  rw [heq]
  have repl_hw : ∀ {a b : Char} {m : List Char}, (∀ c ∈ m, halfwidthB c = true) →
      halfwidthB b = true → ∀ c ∈ replAll a b m, halfwidthB c = true := by
    intro a b m hm hb c hc
    rcases mem_replAll hc with h' | h'
    · exact hm c h'
    · exact h' ▸ hb
  have hw1 : ∀ c ∈ full2half l, halfwidthB c = true := by
    intro c hc
    obtain ⟨d, hd, he⟩ := List.mem_map.mp hc
    exact he ▸ f2h_halfwidth (h d hd)
  have hw2 : ∀ c ∈ rmDelim '(' ')' (full2half l), halfwidthB c = true :=
    fun c hc => hw1 c (mem_rmDelim hc)
  have hw3 := fun c hc => hw2 c (mem_rmDelim (o := '[') (c := ']') hc)
  have hw4 := fun c hc => hw3 c (mem_rmDelim (o := '（') (c := '）') hc)
  have hw5 := fun c hc => hw4 c (mem_rmDelim (o := '【') (c := '】') hc)
  have hw6 := repl_hw (a := '·') hw5 halfwidth_space
  have hw7 := repl_hw (a := '•') hw6 halfwidth_space
  have hw8 := repl_hw (a := '・') hw7 halfwidth_space
  have hw9 := repl_hw (a := '…') hw8 halfwidth_space
  have hw10 := repl_hw (a := '：') hw9 halfwidth_colon
  have hw11 := repl_hw (a := '。') hw10 halfwidth_dot
  have hw12 := repl_hw (a := '，') hw11 halfwidth_comma
  have hw13 : ∀ c ∈ filterKeep (replAll '，' ',' (replAll '。' '.'
      (replAll '：' ':' (replAll '…' ' ' (replAll '・' ' ' (replAll '•' ' ' (replAll '·' ' '
      (rmDelim '【' '】' (rmDelim '（' '）' (rmDelim '[' ']' (rmDelim '(' ')'
      (full2half l)))))))))))), halfwidthB c = true := by
    intro c hc
    rcases mem_collapseRuns hc with h' | h'
    · exact hw12 c h'
    · exact h' ▸ halfwidth_space
  intro c hc
  have hc' := mem_pyStripL hc
  rcases mem_collapseRuns hc' with h' | h'
  · exact hw13 c h'
  · exact h' ▸ halfwidth_space

/-! ## `parse_search_keyword` (identical in `__init__.py` and `single_test.py`)

The classifier applies a fixed list of `re.match` patterns; each is
translated with exact anchoring/backtracking semantics, including the
behaviour of `$` (it also matches just before a single trailing
newline) and the fact that `.` does not match a newline. -/

theorem jlookup_sizeOf {k : String} :
    ∀ {fs : List (String × JValue)} {v : JValue}, jlookup k fs = some v → sizeOf v < sizeOf fs := by
  intro fs
  induction fs with
  | nil => intro v h; simp [jlookup] at h
  | cons p rest ih =>
    intro v h
    simp only [jlookup] at h
    split at h
    · cases h; cases p; simp; omega
    · have := ih h; simp; omega

theorem jget_sizeOf {obj v : JValue} {k : String} (h : jget obj k = some v) :
    sizeOf v < sizeOf obj := by
  unfold jget at h
  match obj, h with
  | .obj fs, h =>
    have := jlookup_sizeOf h
    simp
    omega

theorem jgetT_sizeOf {obj v : JValue} {k : String} (h : jgetT obj k = some v) :
    sizeOf v < sizeOf obj := by
  unfold jgetT at h
  split at h
  · rename_i w hw
    split at h
    · cases h; exact jget_sizeOf hw
    · cases h
  · cases h

theorem lowLookup_sizeOf {fs : List (String × JValue)} {lk : String} {v : JValue}
    (h : lowLookup fs lk = some v) : sizeOf v < sizeOf fs := by
  unfold lowLookup at h
  split at h
  · exact jlookup_sizeOf h
  · cases h

theorem mergeClass_title (nc : JValue) (b : Book) : (mergeClass nc b).title = b.title := by
  unfold mergeClass; repeat' split
  all_goals rfl

theorem mergeClass_authors (nc : JValue) (b : Book) : (mergeClass nc b).authors = b.authors := by
  unfold mergeClass; repeat' split
  all_goals rfl

theorem mergeClass_cover (nc : JValue) (b : Book) : (mergeClass nc b).cover = b.cover := by
  unfold mergeClass; repeat' split
  all_goals rfl

theorem appendIntro_title (iv : JValue) (t : String) (b : Book) :
    (appendIntro iv t b).title = b.title := by
  unfold appendIntro; repeat' split
  all_goals rfl

theorem appendIntro_authors (iv : JValue) (t : String) (b : Book) :
    (appendIntro iv t b).authors = b.authors := by
  unfold appendIntro; repeat' split
  all_goals rfl

theorem appendIntro_cover (iv : JValue) (t : String) (b : Book) :
    (appendIntro iv t b).cover = b.cover := by
  unfold appendIntro; repeat' split
  all_goals rfl

theorem mergeTagList_title (pt : List String) (b : Book) :
    (mergeTagList pt b).title = b.title := by
  unfold mergeTagList; split <;> rfl

theorem mergeTagList_authors (pt : List String) (b : Book) :
    (mergeTagList pt b).authors = b.authors := by
  unfold mergeTagList; split <;> rfl

theorem mergeTagList_cover (pt : List String) (b : Book) :
    (mergeTagList pt b).cover = b.cover := by
  unfold mergeTagList; split <;> rfl

theorem mergeDescriptions_title (L : List String) (b : Book) :
    (mergeDescriptions L b).title = b.title := by
  unfold mergeDescriptions; dsimp only []
  repeat' split
  all_goals rfl

theorem mergeDescriptions_authors (L : List String) (b : Book) :
    (mergeDescriptions L b).authors = b.authors := by
  unfold mergeDescriptions; dsimp only []
  repeat' split
  all_goals rfl

theorem mergeDescriptions_cover (L : List String) (b : Book) :
    (mergeDescriptions L b).cover = b.cover := by
  unfold mergeDescriptions; dsimp only []
  repeat' split
  all_goals rfl

theorem fmoi_title (nid : String) (f : Except Unit JValue) (bd : Option JValue) (b : Book) :
    (fetch_and_merge_other_info nid f bd b).title = b.title := by
  unfold fetch_and_merge_other_info
  split
  · rfl
  split
  · rfl
  dsimp only []
  split
  · rfl
  simp only [mergeDescriptions_title, mergeTagList_title, appendIntro_title, mergeClass_title]

theorem fmoi_authors (nid : String) (f : Except Unit JValue) (bd : Option JValue) (b : Book) :
    (fetch_and_merge_other_info nid f bd b).authors = b.authors := by
  unfold fetch_and_merge_other_info
  split
  · rfl
  split
  · rfl
  dsimp only []
  split
  · rfl
  simp only [mergeDescriptions_authors, mergeTagList_authors, appendIntro_authors,
    mergeClass_authors]

theorem fmoi_cover (nid : String) (f : Except Unit JValue) (bd : Option JValue) (b : Book) :
    (fetch_and_merge_other_info nid f bd b).cover = b.cover := by
  unfold fetch_and_merge_other_info
  split
  · rfl
  split
  · rfl
  dsimp only []
  split
  · rfl
  simp only [mergeDescriptions_cover, mergeTagList_cover, appendIntro_cover, mergeClass_cover]

theorem papd_title (a : JValue) (n : String) (ef : Except Unit JValue) :
    (parse_app_book_data a n ef).title =
      pyStrip (html_to_text (pyStr (pickFrom a
        ["bookname", "bookName", "book_name", "novelname", "novelName", "name", "title",
         "novelname_format", "novelname_format_html"]))) := by
  unfold parse_app_book_data
  dsimp only []
  rw [fmoi_title]

theorem papd_authors (a : JValue) (n : String) (ef : Except Unit JValue) :
    (parse_app_book_data a n ef).authors =
      splitDelims (authorStrOf (pickFrom a
        ["authorname", "author", "authorName", "authors", "writer", "writerName",
         "author_name", "authorNames"])).data := by
  unfold parse_app_book_data
  dsimp only []
  rw [fmoi_authors]

theorem papd_cover (a : JValue) (n : String) (ef : Except Unit JValue) :
    (parse_app_book_data a n ef).cover = coverNormalize (pyStr (coverPick a)) := by
  unfold parse_app_book_data
  dsimp only []
  rw [fmoi_cover]


/-! ## Helper lemmas for the claim theorems -/

theorem isPfx_cons_iff {a : Char} {p l : List Char} :
    isPfx (a :: p) l = true ↔ ∃ t, l = a :: t ∧ isPfx p t = true := by
  cases l with
  | nil => simp [isPfx]
  | cons x xs =>
    simp only [isPfx, Bool.and_eq_true, beq_iff_eq]
    constructor
    · rintro ⟨rfl, h⟩
      exact ⟨xs, rfl, h⟩
    · rintro ⟨t, he, h⟩
      cases he
      exact ⟨rfl, h⟩

theorem ne_empty_of_data {l : List Char} {c : Char} {s : String} (h : s.data = c :: l) :
    s ≠ "" := by
  intro he
  rw [he] at h
  simp at h

theorem mk_eq_empty_iff (l : List Char) : (⟨l⟩ : String) = "" ↔ l = [] := by
  constructor
  · intro h
    exact congrArg String.data h
  · rintro rfl
    rfl

/-- The acceptance filter keeps only absolute http(s)/data URLs or
yields the empty string. -/
theorem coverAccept_closure (c : String) :
    coverAccept c = "" ∨
      (isPfx "http://".data (coverAccept c).data ||
       isPfx "https://".data (coverAccept c).data ||
       isPfx "data:".data (coverAccept c).data) = true := by
  unfold coverAccept
  split
  · rename_i h
    right
    simp only [Bool.and_eq_true, decide_eq_true_eq] at h
    exact h.2
  · left
    rfl

theorem coverAccept_keep {c : String} (hne : c ≠ "")
    (h : (isPfx "http://".data c.data || isPfx "https://".data c.data ||
          isPfx "data:".data c.data) = true) :
    coverAccept c = c := by
  unfold coverAccept
  simp [hne, h]

/-- The enrichment step on a failed fetch: the `except` path returns
the book unchanged. -/
theorem fmoi_error (nid : String) (bd : Option JValue) (b : Book) :
    fetch_and_merge_other_info nid (.error ()) bd b = b := by
  unfold fetch_and_merge_other_info
  split <;> rfl

theorem splitDelims_eq_none {l : List Char} (h : splitFirstP isDelimChar l = none) :
    splitDelims l = stripKeep l := by
  rw [splitDelims]
  split
  · rfl
  · rename_i part rest h'
    rw [h] at h'
    cases h'

theorem splitDelims_eq_some {l part rest : List Char}
    (h : splitFirstP isDelimChar l = some (part, rest)) :
    splitDelims l = stripKeep part ++ splitDelims rest := by
  rw [splitDelims]
  split
  · rename_i h'
    rw [h] at h'
    cases h'
  · rename_i part' rest' h'
    rw [h] at h'
    cases h'
    rfl

theorem stripKeep_parts {part : List Char}
    (hall : ∀ c ∈ part, (!isDelimChar c) = true) :
    ∀ p ∈ stripKeep part, p ≠ "" ∧ p.data.all (fun c => !isDelimChar c) = true := by
  intro p hp
  unfold stripKeep at hp
  dsimp only [] at hp
  split at hp
  · simp at hp
  · rename_i hne
    simp only [List.mem_singleton] at hp
    subst hp
    refine ⟨?_, ?_⟩
    · rw [Ne, mk_eq_empty_iff]
      intro h
      rw [h] at hne
      simp at hne
    · rw [List.all_eq_true]
      intro c hc
      exact hall c (mem_pyStripL hc)

/-- Every part produced by the delimiter split is non-empty and free
of delimiter characters. -/
theorem splitDelims_parts (l : List Char) : ∀ p ∈ splitDelims l,
    p ≠ "" ∧ p.data.all (fun c => !isDelimChar c) = true := by
  induction l using splitDelims.induct with
  | case1 l hnone =>
    rw [splitDelims_eq_none hnone]
    apply stripKeep_parts
    unfold splitFirstP at hnone
    split at hnone
    · rename_i he
      have he' : l.dropWhile (fun c => !isDelimChar c) = [] := by
        simpa using he
      intro c hc
      exact List.dropWhile_eq_nil_iff.mp he' c hc
    · cases hnone
  | case2 l part rest hsome ih =>
    rw [splitDelims_eq_some hsome]
    intro p hp
    rw [List.mem_append] at hp
    cases hp with
    | inl hp =>
      refine stripKeep_parts ?_ p hp
      unfold splitFirstP at hsome
      split at hsome
      · cases hsome
      · cases hsome
        intro c hc
        exact List.mem_takeWhile_imp (p := fun c => !isDelimChar c) hc
    | inr hp => exact ih p hp

/-! ## The claim theorems -/

set_option maxHeartbeats 1000000 in
/-- C1: for the payload `{"code":0,"data":{"book":{"bookname":"Y","author":"Z"}}}`,
the detail pipeline (envelope unwrapping followed by `parse_app_book_data`,
with any enrichment-fetch outcome) yields a record with title `"Y"` and
authors `["Z"]`. -/
theorem c1_detail_pipeline_yields_record (nid : String) (ef : Except Unit JValue) :
    (processDetailResponse (.obj [("code", .num 0), ("data", .obj [("book",
        .obj [("bookname", .str "Y"), ("author", .str "Z")])])]) nid ef).map Book.title
      = some "Y" ∧
    (processDetailResponse (.obj [("code", .num 0), ("data", .obj [("book",
        .obj [("bookname", .str "Y"), ("author", .str "Z")])])]) nid ef).map Book.authors
      = some ["Z"] := by
  have hpt : pickFrom (.obj [("bookname", .str "Y"), ("author", .str "Z")])
      ["bookname", "bookName", "book_name", "novelname", "novelName", "name", "title",
       "novelname_format", "novelname_format_html"] = .str "Y" := by
    simp [pickFrom, pickFromDirect, firstVariantHit, key_variants, dedupFirst,
      dedupFirst.go, capJoin, splitOnChar, splitFirst, capitalizeS, lowerS, lowerL, lowerC,
      delChar, jgetT, jget, jlookup, truthy]
  have hpa : pickFrom (.obj [("bookname", .str "Y"), ("author", .str "Z")])
      ["authorname", "author", "authorName", "authors", "writer", "writerName",
       "author_name", "authorNames"] = .str "Z" := by
    simp [pickFrom, pickFromDirect, firstVariantHit, key_variants, dedupFirst,
      dedupFirst.go, capJoin, splitOnChar, splitFirst, capitalizeS, lowerS, lowerL, lowerC,
      delChar, jgetT, jget, jlookup, truthy]
  have ht : (parse_app_book_data (.obj [("bookname", .str "Y"), ("author", .str "Z")])
      nid ef).title = "Y" := by
    rw [papd_title, hpt]
    simp [html_to_text, stripTags, pyStr, pyStrip, pyStripL, collapseRuns, isPySpace, dropTrail]
  have ha : (parse_app_book_data (.obj [("bookname", .str "Y"), ("author", .str "Z")])
      nid ef).authors = ["Z"] := by
    rw [papd_authors, hpa]
    simp [authorStrOf, html_to_text, stripTags, pyStr, splitDelims, splitFirstP, stripKeep,
      isDelimChar, isPySpace, pyStripL, collapseRuns, dropTrail]
  have key : processDetailResponse (.obj [("code", .num 0), ("data", .obj [("book",
        .obj [("bookname", .str "Y"), ("author", .str "Z")])])]) nid ef =
      (let parsed := parse_app_book_data (.obj [("bookname", .str "Y"), ("author", .str "Z")])
         nid ef
       if parsed.title ≠ "" && parsed.authors ≠ [] then some parsed else none) := rfl
  rw [key]
  simp only [ht, ha]
  constructor <;> simp [ht, ha]

/-- C2 (counterexample): the bare relative cover `"x.jpg"` is neither
absolute, protocol-relative, root-relative nor a data URI, yet the cover
normalization keeps it (prepending the site origin and a slash) instead of
discarding it to the empty string as the claim states. -/
theorem c2_cover_bare_relative_counterexample :
    isPfx "http://".data "x.jpg".data = false ∧
    isPfx "https://".data "x.jpg".data = false ∧
    isPfx "//".data "x.jpg".data = false ∧
    isPfx "/".data "x.jpg".data = false ∧
    isPfx "data:".data "x.jpg".data = false ∧
    coverNormalize "x.jpg" = "https://www.jjwxc.net/x.jpg" := by
  decide

/-- C2 (amended): protocol-relative covers get `https:` prepended,
root-relative covers get the site origin, bare relative covers get the
origin plus `/` (rather than being discarded), and the final value is
always empty or an absolute http(s)/data URL. -/
theorem c2_cover_normalization_amended (s : String) :
    (isPfx "//".data (pyStrip s).data = true →
       coverNormalize s = "https:" ++ pyStrip s) ∧
    (isPfx "//".data (pyStrip s).data = false →
     isPfx "/".data (pyStrip s).data = true →
       coverNormalize s = rstripSlash JINJIANG_BASE_URL ++ pyStrip s) ∧
    (pyStrip s ≠ "" →
     isPfx "//".data (pyStrip s).data = false →
     isPfx "/".data (pyStrip s).data = false →
     isPfx "http://".data (pyStrip s).data = false →
     isPfx "https://".data (pyStrip s).data = false →
     isPfx "data:".data (pyStrip s).data = false →
       coverNormalize s = rstripSlash JINJIANG_BASE_URL ++ "/" ++ lstripSlash (pyStrip s)) ∧
    (coverNormalize s = "" ∨
       (isPfx "http://".data (coverNormalize s).data ||
        isPfx "https://".data (coverNormalize s).data ||
        isPfx "data:".data (coverNormalize s).data) = true) := by
  refine ⟨?_, ?_, ?_, ?_⟩
  · intro h2
    obtain ⟨t1, hd1, h1⟩ := isPfx_cons_iff.mp h2
    obtain ⟨t2, hd2, -⟩ := isPfx_cons_iff.mp h1
    subst hd2
    have hstr : pyStrip s = ⟨'/' :: '/' :: t2⟩ := congrArg String.mk hd1
    have hps : isPfx "https://".data
        ("https:" ++ (⟨'/' :: '/' :: t2⟩ : String)).data = true := rfl
    have hne2 : ("https:" ++ (⟨'/' :: '/' :: t2⟩ : String)) ≠ "" :=
      ne_empty_of_data (l := 't' :: 't' :: 'p' :: 's' :: ':' :: '/' :: '/' :: t2) rfl
    unfold coverNormalize
    rw [hstr]
    simp [isPfx, mk_eq_empty_iff]
    exact coverAccept_keep hne2 (by rw [hps]; simp)
  · intro h2 h1
    obtain ⟨t1, hd1, -⟩ := isPfx_cons_iff.mp h1
    have hstr : pyStrip s = ⟨'/' :: t1⟩ := congrArg String.mk hd1
    rw [hstr] at h2
    have hps : isPfx "https://".data
        (rstripSlash JINJIANG_BASE_URL ++ (⟨'/' :: t1⟩ : String)).data = true := rfl
    have hne2 : (rstripSlash JINJIANG_BASE_URL ++ (⟨'/' :: t1⟩ : String)) ≠ "" :=
      ne_empty_of_data (c := 'h')
        (l := 't' :: 't' :: 'p' :: 's' :: ':' :: '/' :: '/' :: 'w' :: 'w' :: 'w' :: '.' ::
          'j' :: 'j' :: 'w' :: 'x' :: 'c' :: '.' :: 'n' :: 'e' :: 't' :: '/' :: t1) rfl
    have h2' : isPfx ['/'] t1 = false := by simpa [isPfx] using h2
    unfold coverNormalize
    rw [hstr]
    simp [isPfx, h2', mk_eq_empty_iff]
    exact coverAccept_keep hne2 (by rw [hps]; simp)
  · intro hne h2 h1 hh hs hdta
    have hps : isPfx "https://".data
        (rstripSlash JINJIANG_BASE_URL ++ "/" ++ lstripSlash (pyStrip s)).data = true := rfl
    have hne2 : (rstripSlash JINJIANG_BASE_URL ++ "/" ++ lstripSlash (pyStrip s)) ≠ "" :=
      ne_empty_of_data (c := 'h')
        (l := 't' :: 't' :: 'p' :: 's' :: ':' :: '/' :: '/' :: 'w' :: 'w' :: 'w' :: '.' ::
          'j' :: 'j' :: 'w' :: 'x' :: 'c' :: '.' :: 'n' :: 'e' :: 't' :: '/' ::
          ((pyStrip s).data.dropWhile (fun c => c == '/'))) rfl
    unfold coverNormalize
    simp only [h2, h1, hh, hs, hdta]
    simp [hne, mk_eq_empty_iff]
    exact coverAccept_keep hne2 (by rw [hps]; simp)
  · unfold coverNormalize
    dsimp only []
    exact coverAccept_closure _

/-- C3: a failed enrichment fetch (any exception on the HTTP path,
modelled by `Except.error`) is caught and the base book record is returned
completely unmodified. -/
theorem c3_enrichment_failure_returns_base (nid : String) (bd : Option JValue) (b : Book) :
    fetch_and_merge_other_info nid (Except.error ()) bd b = b :=
  fmoi_error nid bd b

/-- C4: keyword classification (a total function in the model by
construction) maps the four sample inputs to the claimed
(keyword, intent) pairs and echoes the empty input with Title intent. -/
theorem c4_keyword_classification_cases :
    parse_search_keyword "作者:张三" = ("张三", 2) ∧
    parse_search_keyword "#张三#" = ("张三", 2) ∧
    parse_search_keyword "t=4 李四" = ("李四", 4) ∧
    parse_search_keyword "随便书名" = ("随便书名", 1) ∧
    parse_search_keyword "" = ("", 1) := by
  refine ⟨?_, ?_, ?_, ?_, ?_⟩ <;> decide

/-- C5: `normalize_query` is idempotent on every string, and an input of
full-width punctuation/space characters (U+FF01..U+FF5E and U+3000)
normalizes to half-width-only output. -/
theorem c5_normalize_idempotent_and_halfwidth (s : String) :
    normalize_query (normalize_query s) = normalize_query s ∧
    ((∀ c ∈ s.data, inFWB c = true) →
      ∀ d ∈ (normalize_query s).data, halfwidthB d = true) := by
  constructor
  · by_cases hs : s = ""
    · subst hs
      rfl
    · have h1 : normalize_query s = ⟨normalizeL s.data⟩ := by
        rw [normalize_query, if_neg hs]
      rw [h1, normalize_query]
      by_cases h2 : (⟨normalizeL s.data⟩ : String) = ""
      · rw [if_pos h2]
      · rw [if_neg h2]
        exact congrArg String.mk (normalizeL_idem s.data)
  · intro h d hd
    by_cases hs : s = ""
    · subst hs
      simp [normalize_query] at hd
    · rw [normalize_query, if_neg hs] at hd
      exact normalizeL_halfwidth h d hd

/-- C6 (amended): the authors list is exactly the delimiter-class split
of the stringified author field, each part stripped, non-empty and free
of delimiter characters, in order; the source never de-duplicates it. -/
theorem c6_authors_split_amended (a : JValue) (nid : String) (ef : Except Unit JValue) :
    (parse_app_book_data a nid ef).authors =
      splitDelims (authorStrOf (pickFrom a
        ["authorname", "author", "authorName", "authors", "writer", "writerName",
         "author_name", "authorNames"])).data ∧
    ∀ p ∈ (parse_app_book_data a nid ef).authors,
      p ≠ "" ∧ p.data.all (fun c => !isDelimChar c) = true := by
  refine ⟨papd_authors a nid ef, ?_⟩
  rw [papd_authors]
  exact splitDelims_parts _

/-- C6 witness: the amended theorem applied at a concrete record. -/
theorem c6_authors_split_amended_witness :
    "Z" ≠ "" ∧ "Z".data.all (fun c => !isDelimChar c) = true := by
  have h := (c6_authors_split_amended (.obj [("author", .str "Z,Z")]) "1" (.error ())).2
  apply h
  rw [papd_authors]
  simp [pickFrom, pickFromDirect, firstVariantHit, key_variants, dedupFirst,
    dedupFirst.go, capJoin, splitOnChar, splitFirst, capitalizeS, lowerS, lowerL, lowerC,
    delChar, jgetT, jget, jlookup, truthy, authorStrOf, html_to_text, stripTags,
    pyStr, splitDelims, splitFirstP, stripKeep, isDelimChar, isPySpace, pyStripL,
    collapseRuns, dropTrail]

set_option maxHeartbeats 1000000 in
/-- C6 (counterexample): the author field `"Z,Z"` produces the authors
list `["Z", "Z"]`, which contains a duplicate, refuting the claimed
de-duplication. -/
theorem c6_authors_not_deduplicated_counterexample :
    (parse_app_book_data (.obj [("author", .str "Z,Z")]) "1" (.error ())).authors = ["Z", "Z"] ∧
    ¬ ((parse_app_book_data (.obj [("author", .str "Z,Z")]) "1" (.error ())).authors).Nodup := by
  have h : (parse_app_book_data (.obj [("author", .str "Z,Z")]) "1" (.error ())).authors
      = ["Z", "Z"] := by
    rw [papd_authors]
    simp [pickFrom, pickFromDirect, firstVariantHit, key_variants, dedupFirst,
      dedupFirst.go, capJoin, splitOnChar, splitFirst, capitalizeS, lowerS, lowerL, lowerC,
      delChar, jgetT, jget, jlookup, truthy, authorStrOf, html_to_text, stripTags,
      pyStr, splitDelims, splitFirstP, stripKeep, isDelimChar, isPySpace, pyStripL,
      collapseRuns, dropTrail]
  refine ⟨h, ?_⟩
  rw [h]
  decide

/-- C7: identifiers carrying a (truthy) Jinjiang external id make
`identify` short-circuit to exactly one direct detail fetch of the URL
built from that id, never invoking the search stage. -/
theorem c7_external_id_short_circuits (ids : List (String × String)) (title : Option String)
    (authors : List String) (jid : String)
    (h : idLookup PROVIDER_ID ids = some jid) (hne : jid ≠ "") :
    identifyFlow ids title authors = .byId (bookDetailUrl jid) ∧
    searchStageInvoked (identifyFlow ids title authors) = false ∧
    directDetailFetches (identifyFlow ids title authors) = [bookDetailUrl jid] := by
  have hflow : identifyFlow ids title authors = .byId (bookDetailUrl jid) := by
    unfold identifyFlow get_book_url
    rw [h]
    simp [hne]
  refine ⟨hflow, ?_, ?_⟩ <;> rw [hflow] <;> rfl

/-- C7 witness: the theorem applied at a concrete identifiers dict. -/
theorem c7_external_id_short_circuits_witness :
    identifyFlow [(PROVIDER_ID, "123")] none [] = .byId (bookDetailUrl "123") ∧
    searchStageInvoked (identifyFlow [(PROVIDER_ID, "123")] none []) = false ∧
    directDetailFetches (identifyFlow [(PROVIDER_ID, "123")] none [])
      = [bookDetailUrl "123"] :=
  c7_external_id_short_circuits [(PROVIDER_ID, "123")] none [] "123" (by rfl) (by decide)

/-- C8 (counterexample): the raw JSON number `2` is neither a boolean nor
one of the listed string forms, yet it maps to the signed label, refuting
the claim that every other value renders as not-signed. -/
theorem c8_sign_flag_numeric_counterexample :
    signedDisplayOf (.num 2) = "已签约" ∧
    (∀ b : Bool, JValue.num 2 ≠ .bool b) ∧
    "已签约" ≠ "未签约" := by
  refine ⟨by decide, ?_, by decide⟩
  intro b h
  cases h

/-- C8 (amended): the signed label appears exactly for boolean `true` and
for stringified-and-stripped values lowering to `"1"`/`"true"`/`"yes"` or
forming a string of Unicode decimal digits with positive value — the
`\d`/`int()` semantics, so the full-width digit `"１"` is also signed —
with numbers behaving like their decimal strings; every other value,
absence included, renders the not-signed label, and one of the two labels
is always rendered. -/
theorem c8_sign_flag_amended :
    (∀ s : String, signedDisplayOf (.str s) = "已签约" ↔
       (lowerS (pyStrip s) = "1" ∨ lowerS (pyStrip s) = "true" ∨
        lowerS (pyStrip s) = "yes" ∨
        (uniDigits (pyStrip s).data = true ∧ 0 < uniDigitsToNat (pyStrip s).data))) ∧
    signedDisplayOf (.bool true) = "已签约" ∧
    signedDisplayOf (.bool false) = "未签约" ∧
    signedDisplayOf (.str "") = "未签约" ∧
    signedDisplayOf (.str "１") = "已签约" ∧
    (∀ n : Int, signedDisplayOf (.num n) = signedDisplayOf (.str (intStr n))) ∧
    (∀ v : JValue, signedDisplayOf v = "已签约" ∨ signedDisplayOf v = "未签约") := by
  refine ⟨?_, by decide, by decide, by decide, by decide, fun n => rfl, ?_⟩
  · intro s
    unfold signedDisplayOf
    rw [show pyStr (JValue.str s) = s from rfl]
    dsimp only []
    split
    · rename_i hraw
      rw [hraw]
      decide
    · rename_i hraw
      split
      · rename_i hc
        simp only [Bool.or_eq_true, decide_eq_true_eq] at hc
        constructor
        · intro _
          rcases hc with (h | h) | h
          · exact Or.inl h
          · exact Or.inr (Or.inl h)
          · exact Or.inr (Or.inr (Or.inl h))
        · intro _
          rfl
      · rename_i hc
        split
        · rename_i hd
          simp only [Bool.and_eq_true, decide_eq_true_eq] at hd
          constructor
          · intro _
            exact Or.inr (Or.inr (Or.inr hd))
          · intro _
            rfl
        · rename_i hd
          constructor
          · intro habs
            exact absurd habs (by decide)
          · intro hr
            exfalso
            simp only [Bool.or_eq_true, decide_eq_true_eq, not_or] at hc
            simp only [Bool.and_eq_true, decide_eq_true_eq, not_and] at hd
            rcases hr with h | h | h | h
            · exact hc.1.1 h
            · exact hc.1.2 h
            · exact hc.2 h
            · exact absurd h.2 (hd h.1)
  · intro v
    unfold signedDisplayOf
    dsimp only []
    split
    · right
      rfl
    · rename_i hraw
      cases v
      case bool b =>
        cases b
        · right
          rfl
        · left
          rfl
      all_goals
        split
        · left
          rfl
        · split
          · left
            rfl
          · right
            rfl

/-- C9: the HTML fallback parser returns `none` when the URL carries no
novelid, when the tree fails to parse, or when the stripped title is
empty; otherwise it returns a record whose authors list may be empty. -/
theorem c9_html_parser_null_guards (url : String) (page : HtmlPage) :
    (findNovelid url = none → parse_book url page = none) ∧
    (pyStrip page.titleText = "" → parse_book url page = none) ∧
    (page.parseOk = false → parse_book url page = none) ∧
    (∀ nid, findNovelid url = some nid → page.parseOk = true →
      pyStrip page.titleText ≠ "" →
      ∃ b, parse_book url page = some b ∧ b.title = pyStrip page.titleText ∧
        b.authors = (if page.authorElems then [pyStrip page.authorText] else [])) := by
  refine ⟨?_, ?_, ?_, ?_⟩
  · intro h
    unfold parse_book
    rw [h]
    split <;> rfl
  · intro h
    unfold parse_book
    split
    · rfl
    · split
      · rfl
      · simp [h]
  · intro h
    unfold parse_book
    rw [h]
    rfl
  · intro nid hid hok hne
    unfold parse_book
    rw [hid, hok]
    simp only [Bool.not_true, Bool.false_eq_true, if_false]
    rw [if_neg hne]
    exact ⟨_, rfl, rfl, rfl⟩

/-- C9 witness: a concrete page with a title and no author elements. -/
theorem c9_html_parser_null_guards_witness :
    (∃ b, parse_book "https://www.jjwxc.net/onebook.php?novelid=7"
        { titleText := "T" } = some b ∧
      b.title = pyStrip (HtmlPage.titleText { titleText := "T" }) ∧
      b.authors = (if (HtmlPage.authorElems { titleText := "T" }) then
        [pyStrip (HtmlPage.authorText { titleText := "T" })] else [])) :=
  (c9_html_parser_null_guards "https://www.jjwxc.net/onebook.php?novelid=7" { titleText := "T" }).2.2.2
    "7" (by decide) (by decide) (by decide)

/-- C10: without a sid the APP-API search returns no candidates without
issuing any request, the web search is unconditionally empty, and the
whole search stage yields zero candidates; a missing or empty cookie
extracts no sid. -/
theorem c10_no_sid_empty_search (mw : Nat) (respond : String → Option JValue) (q : String)
    (st : Int) (sid : Option String) (h : sidTruthy sid = false) :
    search_via_app_api sid mw respond q st = ([], []) ∧
    search_via_web q st = [] ∧
    load_book_urls_new sid mw respond q = ([], []) ∧
    (∀ swa loadBook authors,
      search_books sid mw swa respond loadBook q authors = ([], [])) ∧
    sidTruthy none = false ∧
    (∀ jp, extract_sid_from_cookie none jp = none ∧
           extract_sid_from_cookie (some "") jp = none) := by
  have happ : ∀ q' st', search_via_app_api sid mw respond q' st' = ([], []) := by
    intro q' st'
    unfold search_via_app_api
    rw [h]
    rfl
  have hload : ∀ q', load_book_urls_new sid mw respond q' = ([], []) := by
    intro q'
    unfold load_book_urls_new
    exact happ _ _
  refine ⟨happ q st, rfl, hload q, ?_, rfl, ?_⟩
  · intro swa loadBook authors
    unfold search_books
    dsimp only []
    rw [hload]
    rfl
  · intro jp
    exact ⟨rfl, rfl⟩

/-- C10 witness: the theorem applied at `sid = none`. -/
theorem c10_no_sid_empty_search_witness :
    search_via_app_api none 5 (fun _ => none) "q" 1 = ([], []) ∧
    search_via_web "q" 1 = [] ∧
    load_book_urls_new none 5 (fun _ => none) "q" = ([], []) ∧
    (∀ swa loadBook authors,
      search_books none 5 swa (fun _ => none) loadBook "q" authors = ([], [])) ∧
    sidTruthy none = false ∧
    (∀ jp, extract_sid_from_cookie none jp = none ∧
           extract_sid_from_cookie (some "") jp = none) :=
  c10_no_sid_empty_search 5 (fun _ => none) "q" 1 none (by rfl)


end Jinjiang
